import Mathlib

/-!
Shallow embedding of the Kardia memory subsystem
(src/memory.py and src/memory_extractor.py).

Modelling conventions:
* Timestamps are abstract clock values (Nat); every store operation receives
  the current clock as an explicit argument standing for datetime.now().
* Record ids are Nat.  The source draws fresh ids from uuid4; the model draws
  them from the counter nextId, whose invariant (every live id is below it)
  is the executable abstraction of globally fresh uuids.
* The Python key index maps a key to a reference to the record object held in
  the record list; the model maps the key to the record id and performs
  in-place mutation by updating the (unique) record carrying that id.
* File input for import is modelled at the granularity the code inspects it:
  a parsed JSON shape, with individually malformed records represented by a
  dedicated constructor (Memory construction from such a dict raises and the
  record is skipped).
-/

/-- A memory record (dataclass Memory, src/memory.py lines 23-51). -/
structure Memory where
  id : Nat
  memory_type : String
  content : String
  key : Option String := none
  value : Option String := none
  importance : Int := 1
  created_at : Nat := 0
  last_accessed : Nat := 0
  access_count : Nat := 0
  companion_id : String := ""
  conversation_id : Option Nat := none
  is_shared : Bool := true
  deriving Repr, DecidableEq

/-- Memory.touch (src/memory.py lines 48-51): refresh last_accessed and bump
access_count. -/
def Memory.touch (now : Nat) (m : Memory) : Memory :=
  { m with last_accessed := now, access_count := m.access_count + 1 }

/-- The memory store state (MemoryStore, src/memory.py lines 54-63):
the record list and the key index (plus the fresh-id counter modelling
uuid4). -/
structure MemoryStore where
  memories : List Memory := []
  indexByKey : List (String × Nat) := []
  nextId : Nat := 0
  deriving Repr, DecidableEq

/-- A store with no records, as produced by loading a missing backing file. -/
def emptyStore : MemoryStore := {}

/-- Dictionary lookup in the key index (Python dict access). -/
def lookupKey : List (String × Nat) → String → Option Nat
  | [], _ => none
  | (k, i) :: rest, q => if k = q then some i else lookupKey rest q

/-- Dictionary assignment in the key index (Python dict item assignment):
replace the entry for the key if present, otherwise append one. -/
def setKey : List (String × Nat) → String → Nat → List (String × Nat)
  | [], k, i => [(k, i)]
  | (k', i') :: rest, k, i =>
      if k' = k then (k, i) :: rest else (k', i') :: setKey rest k i

/-- Dictionary pop with default (dict.pop(key, None)). -/
def removeKey : List (String × Nat) → String → List (String × Nat)
  | [], _ => []
  | (k', i') :: rest, k =>
      if k' = k then removeKey rest k else (k', i') :: removeKey rest k

/-- Python truthiness of an Optional[str]: not None and not empty. -/
def keyTruthy : Option String → Bool
  | none => false
  | some s => s != ""

/-- Locate the record a key-index entry references (the model of following
the object reference stored in the Python dict). -/
def MemoryStore.findById (s : MemoryStore) (i : Nat) : Option Memory :=
  s.memories.find? (fun m => m.id == i)

/-- MemoryStore.add_memory (src/memory.py lines 97-138).  A fresh record is
built; if the key is truthy and already indexed the existing record is
updated in place (value and content replaced, importance maxed,
last_accessed refreshed) and returned, otherwise the fresh record is
appended (and indexed when its key is truthy). -/
def MemoryStore.add_memory (s : MemoryStore) (now : Nat)
    (memory_type content : String) (key value : Option String)
    (importance : Int) (companion_id : String) (is_shared : Bool) :
    Memory × MemoryStore :=
  let memory : Memory :=
    { id := s.nextId, memory_type := memory_type, content := content,
      key := key, value := value, importance := importance,
      created_at := now, last_accessed := now, access_count := 0,
      companion_id := companion_id, conversation_id := none,
      is_shared := is_shared }
  match key with
  | some k =>
      if k = "" then
        -- an empty key is falsy: the upsert branch and the index assignment
        -- are both skipped and the record is appended unindexed
        (memory, { s with memories := s.memories ++ [memory],
                          nextId := s.nextId + 1 })
      else
        match lookupKey s.indexByKey k with
        | some i =>
            -- keyed update in place (lines 123-131)
            let upd := fun (m : Memory) =>
              { m with value := value, content := content,
                       importance := max m.importance importance,
                       last_accessed := now }
            let s' := { s with
              memories := s.memories.map (fun m => if m.id = i then upd m else m) }
            -- the index always references a live record in every store
            -- reachable through the public operations, so findById succeeds;
            -- the fallback is dead code needed only for totality
            (match s'.findById i with
             | some m => (m, s')
             | none => (upd memory, s'))
        | none =>
            (memory, { s with memories := s.memories ++ [memory],
                              indexByKey := setKey s.indexByKey k s.nextId,
                              nextId := s.nextId + 1 })
  | none =>
      (memory, { s with memories := s.memories ++ [memory],
                        nextId := s.nextId + 1 })

/-- MemoryStore.get_memory_by_key (src/memory.py lines 140-146): index
lookup; on a hit the record is touched (and the store saved). -/
def MemoryStore.get_memory_by_key (s : MemoryStore) (now : Nat) (k : String) :
    Option Memory × MemoryStore :=
  match lookupKey s.indexByKey k with
  | none => (none, s)
  | some i =>
      let s' := { s with
        memories := s.memories.map (fun m => if m.id = i then m.touch now else m) }
      (s'.findById i, s')

/-- Remove the first record with the given id, returning it and the rest. -/
def deleteFirstById : List Memory → Nat → Option (Memory × List Memory)
  | [], _ => none
  | m :: rest, i =>
      if m.id = i then some (m, rest)
      else match deleteFirstById rest i with
        | some (found, rest') => some (found, m :: rest')
        | none => none

/-- MemoryStore.delete_memory (src/memory.py lines 194-203): drop the first
record with the id; when its key is truthy, pop that key from the index. -/
def MemoryStore.delete_memory (s : MemoryStore) (memory_id : Nat) :
    Bool × MemoryStore :=
  match deleteFirstById s.memories memory_id with
  | none => (false, s)
  | some (m, rest) =>
      let idx := if keyTruthy m.key then removeKey s.indexByKey (m.key.getD "")
                 else s.indexByKey
      (true, { s with memories := rest, indexByKey := idx })

/-- Clamp-and-set on the first record with the id (loop body of
MemoryStore.update_memory_importance, src/memory.py lines 207-212). -/
def updateImportanceList : List Memory → Nat → Int → Option (List Memory)
  | [], _, _ => none
  | m :: rest, i, v =>
      if m.id = i then some ({ m with importance := max 1 (min 5 v) } :: rest)
      else (updateImportanceList rest i v).map (fun rest' => m :: rest')

/-- MemoryStore.update_memory_importance (src/memory.py lines 205-212). -/
def MemoryStore.update_memory_importance (s : MemoryStore) (memory_id : Nat)
    (importance : Int) : Bool × MemoryStore :=
  match updateImportanceList s.memories memory_id importance with
  | some memories => (true, { s with memories := memories })
  | none => (false, s)

/-- MemoryStore.get_shared_memories (src/memory.py lines 495-497). -/
def MemoryStore.get_shared_memories (s : MemoryStore) : List Memory :=
  s.memories.filter (fun m => m.is_shared)

/-- MemoryStore.get_companion_specific_memories (src/memory.py lines
499-504). -/
def MemoryStore.get_companion_specific_memories (s : MemoryStore)
    (companion_id : String) : List Memory :=
  s.memories.filter (fun m => m.companion_id == companion_id && !m.is_shared)

/-- MemoryStore.get_memories_for_companion (src/memory.py lines 506-518):
shared records first, then the companion-specific ones. -/
def MemoryStore.get_memories_for_companion (s : MemoryStore)
    (companion_id : String) : List Memory :=
  let shared := s.memories.filter (fun m => m.is_shared)
  let specific := s.memories.filter
    (fun m => m.companion_id == companion_id && !m.is_shared)
  shared ++ specific

/-!  Import and export (src/memory.py lines 286-493). -/

/-- One entry of the record list inside an import file.  A record
constructor call that raises (a non-dict entry, a dict missing a required
field or carrying an unexpected one) is the malformed constructor; an
otherwise well-formed record dict carries every Memory field, with the
is_shared field possibly absent (none) for old exports. -/
inductive RawRecord where
  | record (id : Nat) (memory_type content : String) (key value : Option String)
      (importance : Int) (created_at last_accessed : Nat) (access_count : Nat)
      (companion_id : String) (conversation_id : Option Nat)
      (is_shared : Option Bool)
  | malformed
  deriving Repr, DecidableEq

/-- Building a Memory from a file record (the per-item body at src/memory.py
lines 439-443): an absent is_shared field is first filled in as true, then
Memory.from_dict runs; a malformed record raises, modelled as none. -/
def RawRecord.toMemory : RawRecord → Option Memory
  | .malformed => none
  | .record id mt c k v imp ca la ac cid convid ish =>
      some { id := id, memory_type := mt, content := c, key := k, value := v,
             importance := imp, created_at := ca, last_accessed := la,
             access_count := ac, companion_id := cid, conversation_id := convid,
             is_shared := ish.getD true }

/-- The parsed shape of an import file (src/memory.py lines 400-426):
unreadable file, invalid top-level JSON, a JSON value that is neither a
dict containing a memories entry nor a list, the versioned envelope, or a
bare record list. -/
inductive JsonFile where
  | unreadable
  | invalidJson
  | otherShape
  | envelope (version export_date : Option String) (total_memories : Nat)
      (memories : List RawRecord)
  | bareList (memories : List RawRecord)
  deriving Repr, DecidableEq

/-- The dict returned by MemoryStore.import_memories. -/
inductive ImportOutcome where
  | failure (error : String)
  | ok (added updated skipped : Nat) (source_version source_date : String)
  deriving Repr, DecidableEq

/-- The success field of an import result. -/
def ImportOutcome.isSuccess : ImportOutcome → Bool
  | .failure _ => false
  | .ok _ _ _ _ _ => true

/-- Append an imported record and index its key when truthy (src/memory.py
lines 455-458 and 461-465).  The nextId bump keeps the fresh-uuid
abstraction: ids drawn later are distinct from every id now live. -/
def importInsert (s : MemoryStore) (memory : Memory) : MemoryStore :=
  { s with memories := s.memories ++ [memory],
           indexByKey :=
             if keyTruthy memory.key
             then setKey s.indexByKey (memory.key.getD "") memory.id
             else s.indexByKey,
           nextId := max s.nextId (memory.id + 1) }

/-- Place one successfully constructed record (src/memory.py lines 445-465):
on a truthy-key collision with the index, merge in place when merge is set
(value and content replaced, importance maxed — counted as updated, the
Bool result), otherwise append.  In replace mode a collision still
appends. -/
def importOne (merge : Bool) (s : MemoryStore) (memory : Memory) :
    MemoryStore × Bool :=
  match memory.key with
  | some k =>
      if k = "" then (importInsert s memory, false)
      else
        match lookupKey s.indexByKey k with
        | some i =>
            if merge then
              let upd := fun (m : Memory) =>
                { m with value := memory.value, content := memory.content,
                         importance := max m.importance memory.importance }
              ({ s with memories :=
                   s.memories.map (fun m => if m.id = i then upd m else m) },
               true)
            else (importInsert s memory, false)
        | none => (importInsert s memory, false)
  | none => (importInsert s memory, false)

/-- The import loop (src/memory.py lines 437-470), returning the final store
and the added, updated and skipped counters. -/
def importRecords (merge : Bool) :
    MemoryStore → List RawRecord → MemoryStore × Nat × Nat × Nat
  | s, [] => (s, 0, 0, 0)
  | s, raw :: rest =>
      match raw.toMemory with
      | none =>
          -- the per-item except: count as skipped, continue the batch
          let r := importRecords merge s rest
          (r.1, r.2.1, r.2.2.1, r.2.2.2 + 1)
      | some memory =>
          let p := importOne merge s memory
          let r := importRecords merge p.1 rest
          if p.2 then (r.1, r.2.1, r.2.2.1 + 1, r.2.2.2)
          else (r.1, r.2.1 + 1, r.2.2.1, r.2.2.2)

/-- Shared tail of import_memories once a record list has been obtained:
clear the store in replace mode, run the loop, report the counters. -/
def importGo (s : MemoryStore) (merge : Bool) (mems : List RawRecord)
    (source_version source_date : String) : ImportOutcome × MemoryStore :=
  let s0 := if merge then s else { s with memories := [], indexByKey := [] }
  let r := importRecords merge s0 mems
  (.ok r.2.1 r.2.2.1 r.2.2.2 source_version source_date, r.1)

/-- MemoryStore.import_memories (src/memory.py lines 385-493). -/
def MemoryStore.import_memories (s : MemoryStore) (file : JsonFile)
    (merge : Bool) : ImportOutcome × MemoryStore :=
  match file with
  | .unreadable => (.failure "File not found", s)
  | .invalidJson => (.failure "Invalid JSON", s)
  | .otherShape => (.failure "Invalid import file format", s)
  | .envelope version export_date _total mems =>
      importGo s merge mems (version.getD "unknown") (export_date.getD "unknown")
  | .bareList mems => importGo s merge mems "unknown" "unknown"

/-- Memory.to_dict as it appears inside an export file: every field
present. -/
def Memory.toRaw (m : Memory) : RawRecord :=
  .record m.id m.memory_type m.content m.key m.value m.importance m.created_at
    m.last_accessed m.access_count m.companion_id m.conversation_id
    (some m.is_shared)

/-- MemoryStore.export_memories in JSON format (src/memory.py lines
297-317): the versioned envelope holding every record. -/
def MemoryStore.export_memories (s : MemoryStore) (now : Nat) : JsonFile :=
  .envelope (some "1.0") (some (toString now)) s.memories.length
    (s.memories.map Memory.toRaw)

/-!  AI extraction parsing (src/memory_extractor.py lines 137-175). -/

/-- The valid values of the MemoryType enumeration (src/memory.py lines
10-20). -/
def memoryTypeValues : List String :=
  ["personal_info", "preference", "life_event", "emotional_state", "interest",
   "relationship", "goal", "important_fact", "conversation_topic"]

/-- One item of the parsed JSON array, restricted to the field shapes the
code reads: each field either absent or carrying a value of the expected
JSON type.  A none entry in the surrounding list is a non-dict item, which
the loop skips. -/
structure RawItem where
  itemType : Option String := none
  content : Option String := none
  key : Option String := none
  value : Option String := none
  importance : Option Int := none
  deriving Repr, DecidableEq

/-- The raw model reply as the parser sees it: no bracketed substring found
by the scan for a first-to-last-bracket span, a span that is not valid
JSON, a valid JSON value that is not a list, or a list of items. -/
inductive AIReply where
  | noBrackets
  | malformedJson
  | nonList
  | items (l : List (Option RawItem))
  deriving Repr, DecidableEq

/-- The sanitized dict built for one parsed item (src/memory_extractor.py
lines 152-166): unknown type falls back to important_fact, content is cut
to 500 characters, key and value are cut to 100 and 200 characters and
coerced to none when absent or empty, importance is clamped to [1,5] with
default 2. -/
structure ExtractedFact where
  factType : String
  content : String
  key : Option String
  value : Option String
  importance : Int
  deriving Repr, DecidableEq

/-- The Python slice s[:n]: the first n characters. -/
def pyCut (s : String) (n : Nat) : String := String.mk (s.toList.take n)

/-- Sanitize one dict item of the parsed array. -/
def sanitizeItem (item : RawItem) : ExtractedFact :=
  let t0 := item.itemType.getD "important_fact"
  { factType := if t0 ∈ memoryTypeValues then t0 else "important_fact",
    content := pyCut (item.content.getD "") 500,
    key := match item.key with
      | some k => if k = "" then none else some (pyCut k 100)
      | none => none,
    value := match item.value with
      | some v => if v = "" then none else some (pyCut v 200)
      | none => none,
    importance := max 1 (min 5 (item.importance.getD 2)) }

/-- MemoryExtractor parse of the extraction response
(src/memory_extractor.py lines 137-175): every failure shape yields the
empty list, a parsed array yields its dict items sanitized in order. -/
def MemoryExtractor.parse_extraction_response : AIReply → List ExtractedFact
  | .noBrackets => []
  | .malformedJson => []
  | .nonList => []
  | .items l => l.filterMap (fun item => item.map sanitizeItem)

/-!  Extraction cadence (src/memory_extractor.py lines 289-354). -/

/-- One conversation message as the manager reads it. -/
structure ChatMsg where
  role : String
  content : String
  deriving Repr, DecidableEq

/-- MemoryManager.should_trigger_extraction (src/memory_extractor.py lines
352-354). -/
def MemoryManager.should_trigger_extraction (message_count : Nat) : Bool :=
  message_count > 0 && message_count % 5 == 0

/-- The condition at src/memory_extractor.py line 322 under which
MemoryManager.process_conversation calls the AI extractor
(MemoryExtractor.extract_from_conversation). -/
def MemoryManager.ai_extraction_guard (messages : List ChatMsg) : Bool :=
  messages.length % 10 == 0 && messages.length > 0

/-!  Pattern extraction (src/memory_extractor.py lines 177-277).

The regex templates used by extract_quick_facts all have the shape
literal, capture group, optional literal, optional capture group, with the
groups matching a nonempty run of a character class; re.search scans for
the leftmost position at which the whole template matches, with
re.IGNORECASE applying to the literals.  Because the literal following a
run never starts with a character of the class, the greedy run never
backtracks, so the class runs are exactly the maximal runs. -/

/-- A word character of the class backslash-w (ASCII range). -/
def isWordChar (c : Char) : Bool := c.isAlphanum || c == '_'

/-- A whitespace character of the class backslash-s (ASCII range). -/
def isSpaceChar (c : Char) : Bool :=
  c == ' ' || c == '\t' || c == '\n' || c == '\r' ||
  c == '\x0b' || c == '\x0c'

/-- The character class of the location captures. -/
def isWordOrSpace (c : Char) : Bool := isWordChar c || isSpaceChar c

/-- A regex template of extract_quick_facts: a literal followed by one
capture, with an optional literal suffix, or two captures separated by a
literal. -/
inductive Pat where
  | one (lit : String) (cls : Char → Bool)
  | oneSuf (lit : String) (cls : Char → Bool) (suf : String)
  | two (lit : String) (cls : Char → Bool) (mid : String) (cls2 : Char → Bool)

/-- Case-insensitive literal match at the head of the input, returning the
rest on success. -/
def matchLitCI : List Char → List Char → Option (List Char)
  | [], rest => some rest
  | _ :: _, [] => none
  | p :: ps, c :: cs =>
      if p.toLower = c.toLower then matchLitCI ps cs else none

/-- Maximal run of a character class at the head of the input. -/
def takeRun (cls : Char → Bool) : List Char → List Char × List Char
  | [] => ([], [])
  | c :: cs =>
      if cls c then
        let (r, rest) := takeRun cls cs
        (c :: r, rest)
      else ([], c :: cs)

/-- Try a template at the current position, returning the captures. -/
def tryPatAt : Pat → List Char → Option (String × Option String)
  | .one lit cls, s =>
      match matchLitCI lit.toList s with
      | none => none
      | some rest =>
          let (run, _) := takeRun cls rest
          if run.isEmpty then none else some (String.mk run, none)
  | .oneSuf lit cls suf, s =>
      match matchLitCI lit.toList s with
      | none => none
      | some rest =>
          let (run, rest2) := takeRun cls rest
          if run.isEmpty then none
          else match matchLitCI suf.toList rest2 with
            | none => none
            | some _ => some (String.mk run, none)
  | .two lit cls mid cls2, s =>
      match matchLitCI lit.toList s with
      | none => none
      | some rest =>
          let (run, rest2) := takeRun cls rest
          if run.isEmpty then none
          else match matchLitCI mid.toList rest2 with
            | none => none
            | some rest3 =>
                let (run2, _) := takeRun cls2 rest3
                if run2.isEmpty then none
                else some (String.mk run, some (String.mk run2))

/-- re.search: the leftmost position at which the template matches. -/
def searchPat (p : Pat) : List Char → Option (String × Option String)
  | [] => tryPatAt p []
  | c :: cs =>
      match tryPatAt p (c :: cs) with
      | some r => some r
      | none => searchPat p cs

/-- Python str.title restricted to ASCII letters: a letter is uppercased
after a non-letter and lowercased after a letter. -/
def titleChars : Bool → List Char → List Char
  | _, [] => []
  | prevAlpha, c :: cs =>
      if c.isAlpha then
        (if prevAlpha then c.toLower else c.toUpper) :: titleChars true cs
      else c :: titleChars false cs

/-- Python str.title on a captured group. -/
def pyTitle (s : String) : String := String.mk (titleChars false s.toList)

/-- The name templates (src/memory_extractor.py lines 197-202). -/
def namePatterns : List Pat :=
  [.one "my name is " isWordChar,
   .one "i'm called " isWordChar,
   .one "call me " isWordChar,
   .oneSuf "i am " isWordChar " and"]

/-- The location templates (src/memory_extractor.py lines 223-227). -/
def locationPatterns : List Pat :=
  [.one "i live in " isWordOrSpace,
   .one "i'm from " isWordOrSpace,
   .one "i stay in " isWordOrSpace]

/-- The sentiment templates with relation word and importance
(src/memory_extractor.py lines 245-251). -/
def preferencePatterns : List (Pat × String × Int) :=
  [(.one "i love " isWordChar, "loves", 3),
   (.one "i hate " isWordChar, "hates", 3),
   (.one "i really like " isWordChar, "likes", 2),
   (.one "i can't stand " isWordChar, "dislikes", 3),
   (.two "my favorite " isWordChar " is " isWordChar, "favorite", 4)]

/-- The name loop (src/memory_extractor.py lines 204-220): on a match the
captured name is title-cased, the name-keyed record is fetched (a touching
read), and a memory is committed only when no name record exists or its
value differs from the match. -/
def nameLoop (msg : List Char) (now : Nat) (cid : String) :
    List Pat → MemoryStore → List Memory → MemoryStore × List Memory
  | [], s, acc => (s, acc)
  | p :: ps, s, acc =>
      match searchPat p msg with
      | none => nameLoop msg now cid ps s acc
      | some (raw, _) =>
          let name := pyTitle raw
          let g := s.get_memory_by_key now "name"
          let write : Bool := match g.1 with
            | none => true
            | some e => e.value != some name
          if write then
            let a := g.2.add_memory now "personal_info"
              ("User's name is " ++ name) (some "name") (some name) 5 cid true
            nameLoop msg now cid ps a.2 (acc ++ [a.1])
          else nameLoop msg now cid ps g.2 acc

/-- The location loop (src/memory_extractor.py lines 229-242): every match
commits unconditionally. -/
def locationLoop (msg : List Char) (now : Nat) (cid : String) :
    List Pat → MemoryStore → List Memory → MemoryStore × List Memory
  | [], s, acc => (s, acc)
  | p :: ps, s, acc =>
      match searchPat p msg with
      | none => locationLoop msg now cid ps s acc
      | some (raw, _) =>
          let location := pyTitle raw
          let a := s.add_memory now "personal_info"
            ("User lives in " ++ location) (some "location") (some location)
            3 cid true
          locationLoop msg now cid ps a.2 (acc ++ [a.1])

/-- The sentiment loop (src/memory_extractor.py lines 253-275): the
two-capture favorite template builds key favorite_thing, the one-capture
templates build key relation_value; captures are committed as matched,
without title-casing. -/
def preferenceLoop (msg : List Char) (now : Nat) (cid : String) :
    List (Pat × String × Int) → MemoryStore → List Memory →
    MemoryStore × List Memory
  | [], s, acc => (s, acc)
  | (p, relation, imp) :: ps, s, acc =>
      match searchPat p msg with
      | none => preferenceLoop msg now cid ps s acc
      | some (g1, g2) =>
          let kvc : String × String × String := match g2 with
            | some v =>
                ("favorite_" ++ g1, v, "User's favorite " ++ g1 ++ " is " ++ v)
            | none =>
                (relation ++ "_" ++ g1, g1, "User " ++ relation ++ " " ++ g1)
          let a := s.add_memory now "preference" kvc.2.2
            (some kvc.1) (some kvc.2.1) imp cid true
          preferenceLoop msg now cid ps a.2 (acc ++ [a.1])

/-- MemoryExtractor.extract_quick_facts (src/memory_extractor.py lines
177-277): run the three template groups in order against one message,
returning the committed memories in commit order. -/
def MemoryExtractor.extract_quick_facts (s : MemoryStore) (now : Nat)
    (message : String) (companion_id : String) : List Memory × MemoryStore :=
  let chars := message.toList
  let r1 := nameLoop chars now companion_id namePatterns s []
  let r2 := locationLoop chars now companion_id locationPatterns r1.1 r1.2
  let r3 := preferenceLoop chars now companion_id preferencePatterns r2.1 r2.2
  (r3.2, r3.1)

/-!  Derived notions used by the statements. -/

/-- Pairwise-distinct record ids: the model-level reading of the fact that
distinct list entries are distinct Python objects with distinct uuids. -/
def DistinctIds (l : List Memory) : Prop :=
  l.Pairwise (fun a b => a.id ≠ b.id)

/-- The store well-formedness every reachable store enjoys: ids are
pairwise distinct and below the fresh-id counter, every index entry
references a live record carrying that truthy key, and every record with a
truthy key is reachable through the index. -/
structure StoreInv (s : MemoryStore) : Prop where
  distinct : DistinctIds s.memories
  fresh : ∀ m ∈ s.memories, m.id < s.nextId
  sound : ∀ k i, lookupKey s.indexByKey k = some i →
      ∃ m ∈ s.memories, m.id = i ∧ m.key = some k ∧ k ≠ ""
  complete : ∀ m ∈ s.memories, ∀ k, m.key = some k → k ≠ "" →
      lookupKey s.indexByKey k = some m.id

/-- At most one record holds any given non-empty key. -/
def KeyUnique (s : MemoryStore) : Prop :=
  ∀ k : String, k ≠ "" →
    s.memories.Pairwise (fun a b => ¬(a.key = some k ∧ b.key = some k))

/-- The ids of the well-formed records of an import file are at least n and
pairwise distinct: the model-level reading of uuid freshness for ids read
from a file. -/
def FreshIdsFrom (l : List RawRecord) (n : Nat) : Prop :=
  (∀ raw ∈ l, ∀ m, raw.toMemory = some m → n ≤ m.id) ∧
  DistinctIds (l.filterMap RawRecord.toMemory)

/-- The identity of a record for the export round trip: its key when
present, its id otherwise. -/
def keyOrId (m : Memory) : String ⊕ Nat :=
  match m.key with
  | some k => Sum.inl k
  | none => Sum.inr m.id

/-- The tuple the round-trip property compares. -/
def exportTuple (m : Memory) : (String ⊕ Nat) × String × Option String × Int :=
  (keyOrId m, m.memory_type, m.value, m.importance)

/-- Every field of a record except the access-tracking ones
(last_accessed, access_count). -/
def dropAccess (m : Memory) :
    Nat × String × String × Option String × Option String × Int × Nat ×
    String × Bool :=
  (m.id, m.memory_type, m.content, m.key, m.value, m.importance,
   m.created_at, m.companion_id, m.is_shared)

/-!  Key-index dictionary lemmas. -/

theorem lookupKey_setKey_self (idx : List (String × Nat)) (k : String) (i : Nat) :
    lookupKey (setKey idx k i) k = some i := by
  induction idx with
  | nil => simp [setKey, lookupKey]
  | cons p rest ih =>
      obtain ⟨k', i'⟩ := p
      by_cases h : k' = k
      · simp [setKey, h, lookupKey]
      · simp [setKey, h, lookupKey, ih]

theorem lookupKey_setKey_ne (idx : List (String × Nat)) (k q : String) (i : Nat)
    (h : q ≠ k) : lookupKey (setKey idx k i) q = lookupKey idx q := by
  have hkq : k ≠ q := Ne.symm h
  induction idx with
  | nil => simp [setKey, lookupKey, hkq]
  | cons p rest ih =>
      obtain ⟨k', i'⟩ := p
      by_cases hk : k' = k
      · subst hk
        simp [setKey, lookupKey, hkq]
      · simp only [setKey, if_neg hk, lookupKey]
        by_cases hq : k' = q
        · simp [hq]
        · simp [hq, ih]

theorem lookupKey_removeKey_self (idx : List (String × Nat)) (k : String) :
    lookupKey (removeKey idx k) k = none := by
  induction idx with
  | nil => simp [removeKey, lookupKey]
  | cons p rest ih =>
      obtain ⟨k', i'⟩ := p
      by_cases h : k' = k
      · simpa [removeKey, h] using ih
      · simpa [removeKey, h, lookupKey] using ih

theorem lookupKey_removeKey_ne (idx : List (String × Nat)) (k q : String)
    (h : q ≠ k) : lookupKey (removeKey idx k) q = lookupKey idx q := by
  induction idx with
  | nil => simp [removeKey, lookupKey]
  | cons p rest ih =>
      obtain ⟨k', i'⟩ := p
      by_cases hk : k' = k
      · simpa [removeKey, hk, lookupKey, Ne.symm h] using ih
      · simp only [removeKey, if_neg hk, lookupKey]
        by_cases hq : k' = q
        · simp [hq]
        · simp [hq, ih]

/-!  Claim C5. -/

theorem should_trigger_iff (n : Nat) :
    MemoryManager.should_trigger_extraction n = true ↔ (0 < n ∧ n % 5 = 0) := by
  simp [MemoryManager.should_trigger_extraction, Bool.and_eq_true,
    decide_eq_true_eq, beq_iff_eq, and_comm]

theorem ai_guard_iff (msgs : List ChatMsg) :
    MemoryManager.ai_extraction_guard msgs = true ↔
      (msgs ≠ [] ∧ msgs.length % 10 = 0) := by
  simp only [MemoryManager.ai_extraction_guard, Bool.and_eq_true,
    decide_eq_true_eq, beq_iff_eq, gt_iff_lt, ← List.length_pos_iff_ne_nil]
  tauto

/-- Claim C5: should_trigger_extraction is true exactly on the positive
multiples of 5, process_conversation invokes the AI extractor exactly on
non-empty conversations whose length is a multiple of 10, the two cadences
disagree at lengths 5 mod 10 and agree at positive multiples of 10. -/
theorem extraction_cadence :
    (∀ n : Nat,
       MemoryManager.should_trigger_extraction n = true ↔ (0 < n ∧ n % 5 = 0)) ∧
    (∀ msgs : List ChatMsg,
       MemoryManager.ai_extraction_guard msgs = true ↔
         (msgs ≠ [] ∧ msgs.length % 10 = 0)) ∧
    (∀ (k : Nat) (msgs : List ChatMsg), msgs.length = 10 * k + 5 →
       MemoryManager.should_trigger_extraction msgs.length = true ∧
       MemoryManager.ai_extraction_guard msgs = false) ∧
    (∀ (k : Nat) (msgs : List ChatMsg), 0 < k → msgs.length = 10 * k →
       MemoryManager.should_trigger_extraction msgs.length = true ∧
       MemoryManager.ai_extraction_guard msgs = true) := by
  refine ⟨should_trigger_iff, ai_guard_iff, ?_, ?_⟩
  · intro k msgs h
    constructor
    · rw [should_trigger_iff, h]
      omega
    · rw [Bool.eq_false_iff]
      intro hc
      rw [ai_guard_iff, h] at hc
      omega
  · intro k msgs hk h
    constructor
    · rw [should_trigger_iff, h]
      omega
    · rw [ai_guard_iff, h]
      refine ⟨by rw [← List.length_pos_iff_ne_nil, h]; omega, by omega⟩

/-- Witness for claim C5, at lengths 5 and 20. -/
theorem extraction_cadence_witness :
    MemoryManager.should_trigger_extraction 5 = true ∧
    MemoryManager.ai_extraction_guard
      (List.replicate 5 (ChatMsg.mk "user" "hi")) = false ∧
    MemoryManager.should_trigger_extraction 20 = true ∧
    MemoryManager.ai_extraction_guard
      (List.replicate 20 (ChatMsg.mk "user" "hi")) = true := by
  have h1 := extraction_cadence.2.2.1 0
    (List.replicate 5 (ChatMsg.mk "user" "hi")) (by simp)
  have h2 := extraction_cadence.2.2.2 2
    (List.replicate 20 (ChatMsg.mk "user" "hi")) (by omega) (by simp)
  exact ⟨by simpa using h1.1, h1.2, by simpa using h2.1, h2.2⟩

/-!  Claim C8. -/

/-- Claim C8, counterexample: the shared/specific partition is not an
enforced invariant; a single public add_memory call with is_shared false
and the default empty companion_id yields a store holding a record for
which neither disjunct of the claimed partition holds. -/
theorem shared_partition_not_enforced :
    ¬ (∀ m ∈ ((emptyStore.add_memory 0 "interest" "c" none none 1 "" false).2).memories,
        m.is_shared = true ∨ (m.is_shared = false ∧ m.companion_id ≠ "")) := by
  decide

/-- Claim C8 as amended: the store does not enforce the partition, but for
every companion id the companion view is exactly the shared records
followed by exactly the records specific to that companion, and no record
lies in both parts. -/
theorem companion_view_partition (s : MemoryStore) (cid : String) :
    s.get_memories_for_companion cid =
      s.get_shared_memories ++ s.get_companion_specific_memories cid ∧
    (∀ m : Memory,
       m ∈ s.get_shared_memories ↔ m ∈ s.memories ∧ m.is_shared = true) ∧
    (∀ m : Memory,
       m ∈ s.get_companion_specific_memories cid ↔
         m ∈ s.memories ∧ m.is_shared = false ∧ m.companion_id = cid) ∧
    (∀ m : Memory,
       ¬(m ∈ s.get_shared_memories ∧
         m ∈ s.get_companion_specific_memories cid)) := by
  refine ⟨rfl, ?_, ?_, ?_⟩
  · intro m
    simp [MemoryStore.get_shared_memories, List.mem_filter]
  · intro m
    simp only [MemoryStore.get_companion_specific_memories, List.mem_filter,
      Bool.and_eq_true, beq_iff_eq, Bool.not_eq_true']
    tauto
  · rintro m ⟨h1, h2⟩
    simp only [MemoryStore.get_shared_memories, List.mem_filter] at h1
    simp only [MemoryStore.get_companion_specific_memories, List.mem_filter,
      Bool.and_eq_true] at h2
    have hns : (!m.is_shared) = true := h2.2.2
    rw [h1.2] at hns
    simp at hns

/-- Witness for the amended claim C8, on a two-record store. -/
theorem companion_view_partition_witness :
    (let mShared : Memory :=
      { id := 0, memory_type := "goal", content := "a", is_shared := true }
     let mSpec : Memory :=
      { id := 1, memory_type := "goal", content := "b", is_shared := false,
        companion_id := "c1" }
     let s : MemoryStore :=
      { memories := [mShared, mSpec], indexByKey := [], nextId := 2 }
     s.get_memories_for_companion "c1" =
       s.get_shared_memories ++ s.get_companion_specific_memories "c1" ∧
     (mShared ∈ s.get_shared_memories ↔
        mShared ∈ s.memories ∧ mShared.is_shared = true) ∧
     ¬(mShared ∈ s.get_shared_memories ∧
       mShared ∈ s.get_companion_specific_memories "c1")) := by
  refine ⟨(companion_view_partition _ "c1").1,
    (companion_view_partition _ "c1").2.1 _,
    (companion_view_partition _ "c1").2.2.2 _⟩

/-!  Claim C2. -/

/-- Claim C2, counterexample: add_memory does not clamp; a public call with
importance 7 stores importance 7, outside [1,5]. -/
theorem add_memory_importance_not_clamped :
    ((emptyStore.add_memory 0 "preference" "c" none none 7 "" true).2).memories.map
      (fun m => m.importance) = [7] ∧ ¬((7 : Int) ≤ 5) := by
  decide

theorem updateImportanceList_isSome (l : List Memory) (i : Nat) (v : Int) :
    (updateImportanceList l i v).isSome ↔ ∃ m ∈ l, m.id = i := by
  induction l with
  | nil => simp [updateImportanceList]
  | cons m rest ih =>
      by_cases h : m.id = i
      · simp [updateImportanceList, h]
      · simp [updateImportanceList, h, ih]

theorem updateImportanceList_spec (l : List Memory) (i : Nat) (v : Int)
    (l' : List Memory) (h : updateImportanceList l i v = some l') :
    ∃ l1 m l2, l = l1 ++ m :: l2 ∧ m.id = i ∧
      l' = l1 ++ ({ m with importance := max 1 (min 5 v) } :: l2) ∧
      ∀ x ∈ l1, x.id ≠ i := by
  induction l generalizing l' with
  | nil => simp [updateImportanceList] at h
  | cons hd rest ih =>
      by_cases hid : hd.id = i
      · refine ⟨[], hd, rest, by simp, hid, ?_, by simp⟩
        simp only [updateImportanceList, if_pos hid, Option.some.injEq] at h
        simp [← h]
      · cases hrec : updateImportanceList rest i v with
        | none => simp [updateImportanceList, hid, hrec] at h
        | some rest' =>
            simp only [updateImportanceList, if_neg hid, hrec, Option.map_some',
              Option.some.injEq] at h
            obtain ⟨l1, m, l2, hl, hm, hl', hne⟩ := ih rest' hrec
            refine ⟨hd :: l1, m, l2, by simp [hl], hm, by simp [← h, hl'], ?_⟩
            intro x hx
            rcases List.mem_cons.mp hx with hx | hx
            · exact hx ▸ hid
            · exact hne x hx

/-- Claim C2 as amended: update_memory_importance stores the clamp
max 1 (min 5 v) for any integer v and reports whether the id exists (the
clamp lies in [1,5]), while add_memory stores the importance argument it
is given, unclamped. -/
theorem importance_write_semantics :
    (∀ (s : MemoryStore) (i : Nat) (v : Int),
       DistinctIds s.memories →
       (((s.update_memory_importance i v).1 = true) ↔
          ∃ m ∈ s.memories, m.id = i) ∧
       (∀ m' ∈ (s.update_memory_importance i v).2.memories, m'.id = i →
          m'.importance = max 1 (min 5 v)) ∧
       (1 : Int) ≤ max 1 (min 5 v) ∧ max 1 (min 5 v) ≤ 5) ∧
    (∀ (s : MemoryStore) (now : Nat) (mt c : String) (v : Option String)
       (imp : Int) (cid : String) (sh : Bool),
       ((s.add_memory now mt c none v imp cid sh).1).importance = imp) := by
  constructor
  · intro s i v hdis
    refine ⟨?_, ?_, le_max_left _ _, max_le (by norm_num) (min_le_left _ _)⟩
    · rw [← updateImportanceList_isSome s.memories i v]
      unfold MemoryStore.update_memory_importance
      cases h : updateImportanceList s.memories i v with
      | none => simp [h]
      | some l' => simp [h]
    · intro m' hm' hid
      unfold MemoryStore.update_memory_importance at hm'
      cases h : updateImportanceList s.memories i v with
      | none =>
          rw [h] at hm'
          simp only at hm'
          obtain ⟨m0, hm0, hm0id⟩ : ∃ m ∈ s.memories, m.id = i :=
            ⟨m', hm', hid⟩
          have : (updateImportanceList s.memories i v).isSome :=
            (updateImportanceList_isSome s.memories i v).mpr ⟨m0, hm0, hm0id⟩
          rw [h] at this
          simp at this
      | some l' =>
          rw [h] at hm'
          simp only at hm'
          obtain ⟨l1, m, l2, hl, hm, hl', hne⟩ :=
            updateImportanceList_spec s.memories i v l' h
          rw [hl'] at hm'
          rcases List.mem_append.mp hm' with h1 | h2
          · exact absurd hid (hne m' h1)
          · rcases List.mem_cons.mp h2 with h2 | h2
            · rw [h2]
            · exfalso
              rw [hl] at hdis
              have hpair := (List.pairwise_append.mp hdis).2.1
              have := (List.pairwise_cons.mp hpair).1 m' h2
              exact this (hm.trans hid.symm)
  · intro s now mt c v imp cid sh
    rfl

/-- Witness for the amended claim C2, on a one-record store and v = 9. -/
theorem importance_write_semantics_witness :
    (let s : MemoryStore :=
       { memories := [{ id := 3, memory_type := "goal", content := "g" }],
         indexByKey := [], nextId := 4 }
     (((s.update_memory_importance 3 9).1 = true) ↔
        ∃ m ∈ s.memories, m.id = 3) ∧
     (∀ m' ∈ (s.update_memory_importance 3 9).2.memories, m'.id = 3 →
        m'.importance = max 1 (min 5 9)) ∧
     (1 : Int) ≤ max 1 (min 5 9) ∧ max 1 (min 5 (9 : Int)) ≤ 5) := by
  intro s
  exact importance_write_semantics.1 s 3 9 (by simp [s, DistinctIds])

/-!  Import behaviour lemmas shared by claims C3, C4 and C9. -/

theorem importOne_false (s : MemoryStore) (memory : Memory) :
    importOne false s memory = (importInsert s memory, false) := by
  cases hmk : memory.key with
  | none => simp [importOne, hmk]
  | some k =>
      by_cases hk : k = ""
      · simp [importOne, hmk, hk]
      · cases hl : lookupKey s.indexByKey k <;> simp [importOne, hmk, hk, hl]

theorem importRecords_false_memories (l : List RawRecord) (s : MemoryStore) :
    ((importRecords false s l).1).memories =
      s.memories ++ l.filterMap RawRecord.toMemory := by
  induction l generalizing s with
  | nil => simp [importRecords]
  | cons raw rest ih =>
      cases hr : raw.toMemory with
      | none => simp [importRecords, hr, ih]
      | some memory =>
          simp only [importRecords, hr, importOne_false]
          simp [ih, importInsert, hr]

theorem importRecords_counts (merge : Bool) (l : List RawRecord)
    (s : MemoryStore) :
    (importRecords merge s l).2.2.2 =
      (l.filter (fun raw => raw.toMemory.isNone)).length ∧
    (importRecords merge s l).2.1 + (importRecords merge s l).2.2.1 =
      (l.filter (fun raw => raw.toMemory.isSome)).length := by
  induction l generalizing s with
  | nil => simp [importRecords]
  | cons raw rest ih =>
      cases hr : raw.toMemory with
      | none =>
          obtain ⟨ih1, ih2⟩ := ih s
          simp only [importRecords, hr, List.filter_cons]
          simp [hr, ih1, ih2]
      | some memory =>
          obtain ⟨ih1, ih2⟩ := ih (importOne merge s memory).1
          cases hp : (importOne merge s memory).2 <;>
            simp only [importRecords, hr, hp, List.filter_cons, if_true,
              if_false, Bool.false_eq_true] <;>
            simp [hr, ih1] <;> omega

/-- Memory construction from an exported record restores the record. -/
theorem toMemory_toRaw (m : Memory) : (Memory.toRaw m).toMemory = some m := rfl

/-!  Claim C4. -/

/-- Claim C4: exporting in JSON format and importing the file with merge
false into an empty store reproduces the record list exactly, hence the
same tuples of key-or-id, type, value and importance; the import call
succeeds. -/
theorem export_import_roundtrip (s : MemoryStore) (now : Nat) :
    ((emptyStore.import_memories (s.export_memories now) false).2).memories =
      s.memories ∧
    ((emptyStore.import_memories (s.export_memories now) false).2).memories.map
        exportTuple = s.memories.map exportTuple ∧
    ((emptyStore.import_memories (s.export_memories now) false).1).isSuccess =
      true := by
  have h : ((emptyStore.import_memories
      (s.export_memories now) false).2).memories = s.memories := by
    simp only [MemoryStore.export_memories, MemoryStore.import_memories,
      importGo, if_neg Bool.false_ne_true]
    rw [importRecords_false_memories]
    simp only [emptyStore, List.filterMap_map, List.nil_append]
    have hcomp : RawRecord.toMemory ∘ Memory.toRaw = some :=
      funext toMemory_toRaw
    rw [hcomp, List.filterMap_some]
  exact ⟨h, by rw [h], rfl⟩

/-!  Claim C9. -/

/-- Claim C9: a batch with a record missing is_shared and one carrying
is_shared false imports fully, defaulting the first to shared and keeping
the second companion-scoped; malformed records are skipped and counted
while the batch proceeds; exactly the unreadable-file, invalid-JSON and
unrecognized-shape cases fail the whole call (leaving the store intact),
while both list shapes always succeed. -/
theorem import_error_tolerance :
    ((emptyStore.import_memories
        (.bareList
          [RawRecord.record 1 "personal_info" "likes tea" none none 2 0 0 0
             "c" none none,
           RawRecord.record 2 "interest" "plays go" none none 3 0 0 0
             "c" none (some false)]) true).1 =
       .ok 2 0 0 "unknown" "unknown" ∧
     ((emptyStore.import_memories
        (.bareList
          [RawRecord.record 1 "personal_info" "likes tea" none none 2 0 0 0
             "c" none none,
           RawRecord.record 2 "interest" "plays go" none none 3 0 0 0
             "c" none (some false)]) true).2).memories.map
         (fun m => m.is_shared) = [true, false]) ∧
    (∀ (merge : Bool) (s : MemoryStore) (l : List RawRecord),
       (importRecords merge s l).2.2.2 =
         (l.filter (fun raw => raw.toMemory.isNone)).length ∧
       (importRecords merge s l).2.1 + (importRecords merge s l).2.2.1 =
         (l.filter (fun raw => raw.toMemory.isSome)).length) ∧
    (∀ (s : MemoryStore) (merge : Bool),
       ((s.import_memories .unreadable merge).1.isSuccess = false ∧
        (s.import_memories .unreadable merge).2 = s) ∧
       ((s.import_memories .invalidJson merge).1.isSuccess = false ∧
        (s.import_memories .invalidJson merge).2 = s) ∧
       ((s.import_memories .otherShape merge).1.isSuccess = false ∧
        (s.import_memories .otherShape merge).2 = s) ∧
       (∀ v d t l,
          (s.import_memories (.envelope v d t l) merge).1.isSuccess = true) ∧
       (∀ l, (s.import_memories (.bareList l) merge).1.isSuccess = true)) := by
  refine ⟨by decide, fun merge s l => importRecords_counts merge l s, ?_⟩
  intro s merge
  refine ⟨⟨rfl, rfl⟩, ⟨rfl, rfl⟩, ⟨rfl, rfl⟩, fun v d t l => rfl, fun l => rfl⟩

/-!  Claim C7. -/

theorem pyCut_length (s : String) (n : Nat) : (pyCut s n).length ≤ n := by
  show (s.toList.take n).length ≤ n
  simp [List.length_take]

/-- Claim C7: AI-extraction parsing returns the empty list on every parse
failure (and, being a total function of the reply, never raises), and
sanitizes every parsed item: the type is always a valid memory type with
unknown types falling back to important_fact, content is at most 500
characters, key at most 100 and value at most 200 with empty or absent
ones coerced to none, and importance is clamped to [1,5] with default 2
when absent. -/
theorem parse_extraction_sanitization :
    (MemoryExtractor.parse_extraction_response .noBrackets = [] ∧
     MemoryExtractor.parse_extraction_response .malformedJson = [] ∧
     MemoryExtractor.parse_extraction_response .nonList = []) ∧
    (∀ (l : List (Option RawItem)) (f : ExtractedFact),
       f ∈ MemoryExtractor.parse_extraction_response (.items l) →
         f.factType ∈ memoryTypeValues ∧
         f.content.length ≤ 500 ∧
         (∀ k, f.key = some k → k.length ≤ 100) ∧
         (∀ v, f.value = some v → v.length ≤ 200) ∧
         1 ≤ f.importance ∧ f.importance ≤ 5) ∧
    (∀ item : RawItem,
       (∀ t, item.itemType = some t → t ∉ memoryTypeValues) →
         (sanitizeItem item).factType = "important_fact") ∧
    (∀ item : RawItem, (item.key = none ∨ item.key = some "") →
       (sanitizeItem item).key = none) ∧
    (∀ item : RawItem, (item.value = none ∨ item.value = some "") →
       (sanitizeItem item).value = none) ∧
    (∀ item : RawItem, item.importance = none →
       (sanitizeItem item).importance = 2) := by
  have hsan : ∀ item : RawItem,
      (sanitizeItem item).factType ∈ memoryTypeValues ∧
      (sanitizeItem item).content.length ≤ 500 ∧
      (∀ k, (sanitizeItem item).key = some k → k.length ≤ 100) ∧
      (∀ v, (sanitizeItem item).value = some v → v.length ≤ 200) ∧
      1 ≤ (sanitizeItem item).importance ∧
      (sanitizeItem item).importance ≤ 5 := by
    intro item
    refine ⟨?_, pyCut_length _ _, ?_, ?_, le_max_left _ _,
      max_le (by norm_num) (min_le_left _ _)⟩
    · dsimp only [sanitizeItem]
      by_cases h : item.itemType.getD "important_fact" ∈ memoryTypeValues
      · rw [if_pos h]
        exact h
      · rw [if_neg h]
        decide
    · intro k hk
      cases hik : item.key with
      | none => simp [sanitizeItem, hik] at hk
      | some k0 =>
          by_cases h0 : k0 = ""
          · simp [sanitizeItem, hik, h0] at hk
          · simp only [sanitizeItem, hik, if_neg h0, Option.some.injEq] at hk
            exact hk ▸ pyCut_length k0 100
    · intro v hv
      cases hiv : item.value with
      | none => simp [sanitizeItem, hiv] at hv
      | some v0 =>
          by_cases h0 : v0 = ""
          · simp [sanitizeItem, hiv, h0] at hv
          · simp only [sanitizeItem, hiv, if_neg h0, Option.some.injEq] at hv
            exact hv ▸ pyCut_length v0 200
  refine ⟨⟨rfl, rfl, rfl⟩, ?_, ?_, ?_, ?_, ?_⟩
  · intro l f hf
    simp only [MemoryExtractor.parse_extraction_response,
      List.mem_filterMap] at hf
    obtain ⟨o, _, ho⟩ := hf
    cases o with
    | none => simp at ho
    | some item =>
        simp only [Option.map_some', Option.some.injEq] at ho
        exact ho ▸ hsan item
  · intro item h
    cases hit : item.itemType with
    | none =>
        have ht : item.itemType.getD "important_fact" = "important_fact" := by
          rw [hit]
          rfl
        dsimp only [sanitizeItem]
        rw [ht, if_pos (by decide : "important_fact" ∈ memoryTypeValues)]
    | some t =>
        have ht : item.itemType.getD "important_fact" = t := by
          rw [hit]
          rfl
        dsimp only [sanitizeItem]
        rw [ht, if_neg (h t hit)]
  · intro item h
    rcases h with h | h <;> simp [sanitizeItem, h]
  · intro item h
    rcases h with h | h <;> simp [sanitizeItem, h]
  · intro item h
    simp [sanitizeItem, h]

/-- Witness for claim C7: one well-formed item inside a parsed reply. -/
theorem parse_extraction_sanitization_witness :
    (let item : RawItem :=
      { itemType := some "interest", content := some "Likes hiking",
        key := some "hobby", value := some "hiking", importance := some 3 }
     (sanitizeItem item).factType ∈ memoryTypeValues ∧
     (sanitizeItem item).content.length ≤ 500 ∧
     (∀ k, (sanitizeItem item).key = some k → k.length ≤ 100) ∧
     (∀ v, (sanitizeItem item).value = some v → v.length ≤ 200) ∧
     1 ≤ (sanitizeItem item).importance ∧
     (sanitizeItem item).importance ≤ 5) := by
  exact parse_extraction_sanitization.2.1
    [some { itemType := some "interest", content := some "Likes hiking",
            key := some "hobby", value := some "hiking",
            importance := some 3 }]
    (sanitizeItem
      { itemType := some "interest", content := some "Likes hiking",
        key := some "hobby", value := some "hiking", importance := some 3 })
    (by simp [MemoryExtractor.parse_extraction_response])

/-!  The keyed-update branch of add_memory, shared by claims C1 and C10. -/

theorem map_id_of_fix (l : List Memory) (f : Memory → Memory)
    (h : ∀ m ∈ l, f m = m) : l.map f = l := by
  induction l with
  | nil => rfl
  | cons hd rest ih =>
      rw [List.map_cons, h hd (List.mem_cons_self hd rest),
        ih (fun m hm => h m (List.mem_cons_of_mem hd hm))]

theorem find?_id_map_upd (l : List Memory) (m0 : Memory) (f : Memory → Memory)
    (hf : ∀ m, (f m).id = m.id) (hdis : DistinctIds l) (hm0 : m0 ∈ l) :
    (l.map f).find? (fun m => m.id == m0.id) = some (f m0) := by
  induction l with
  | nil => simp at hm0
  | cons hd rest ih =>
      rcases List.mem_cons.mp hm0 with h | h
      · subst h
        rw [List.map_cons]
        exact List.find?_cons_of_pos _ (by simp [hf])
      · have hne : hd.id ≠ m0.id :=
          (List.pairwise_cons.mp hdis).1 m0 h
        rw [List.map_cons]
        rw [List.find?_cons_of_neg _ (by simp [hf, hne])]
        exact ih (List.pairwise_cons.mp hdis).2 h

theorem add_memory_update_spec (s : MemoryStore) (now : Nat)
    (mt c k : String) (v : Option String) (imp : Int) (cid : String)
    (sh : Bool) (m0 : Memory)
    (hdis : DistinctIds s.memories) (hm0 : m0 ∈ s.memories) (hk : k ≠ "")
    (hlook : lookupKey s.indexByKey k = some m0.id) :
    (s.add_memory now mt c (some k) v imp cid sh).1 =
      { m0 with value := v, content := c,
                importance := max m0.importance imp, last_accessed := now } ∧
    (s.add_memory now mt c (some k) v imp cid sh).2.memories =
      s.memories.map (fun m =>
        if m.id = m0.id then
          { m with value := v, content := c,
                   importance := max m.importance imp, last_accessed := now }
        else m) ∧
    (s.add_memory now mt c (some k) v imp cid sh).2.indexByKey =
      s.indexByKey ∧
    (s.add_memory now mt c (some k) v imp cid sh).2.nextId = s.nextId := by
  have hf : ∀ m : Memory,
      ((fun m : Memory =>
        if m.id = m0.id then
          { m with value := v, content := c,
                   importance := max m.importance imp, last_accessed := now }
        else m) m).id = m.id := by
    intro m
    by_cases h : m.id = m0.id <;> simp [h]
  have hfind := find?_id_map_upd s.memories m0 _ hf hdis hm0
  simp only [if_pos rfl] at hfind
  simp only [MemoryStore.add_memory, hk, ↓reduceIte, hlook,
    MemoryStore.findById, hfind]
  refine ⟨?_, ?_, ?_, ?_⟩ <;> trivial

/-!  Claim C1. -/

/-- Claim C1: a call with a key already indexed does not create a record:
the indexed record is updated in place (value and content replaced,
importance maxed, last_accessed refreshed) and returned, and the record
count is unchanged; two calls with the same fresh key leave exactly one
record holding that key, with value and content from the second call and
importance the max of the two. -/
theorem add_memory_keyed_upsert :
    (∀ (s : MemoryStore) (now : Nat) (mt c k : String) (v : Option String)
       (imp : Int) (cid : String) (sh : Bool) (m0 : Memory),
       DistinctIds s.memories → m0 ∈ s.memories → k ≠ "" →
       lookupKey s.indexByKey k = some m0.id →
       (s.add_memory now mt c (some k) v imp cid sh).1 =
         { m0 with value := v, content := c,
                   importance := max m0.importance imp,
                   last_accessed := now } ∧
       (s.add_memory now mt c (some k) v imp cid sh).1.id = m0.id ∧
       (s.add_memory now mt c (some k) v imp cid sh).2.memories.length =
         s.memories.length) ∧
    (∀ (s : MemoryStore) (now1 now2 : Nat) (mt1 mt2 c1 c2 k : String)
       (v1 v2 : Option String) (imp1 imp2 : Int) (cid1 cid2 : String)
       (sh1 sh2 : Bool),
       DistinctIds s.memories → k ≠ "" →
       lookupKey s.indexByKey k = none →
       (∀ m ∈ s.memories, m.key ≠ some k) →
       (∀ m ∈ s.memories, m.id < s.nextId) →
       (((s.add_memory now1 mt1 c1 (some k) v1 imp1 cid1 sh1).2.add_memory
           now2 mt2 c2 (some k) v2 imp2 cid2 sh2).2.memories.filter
          (fun m => m.key == some k)).length = 1 ∧
       (∀ m ∈ ((s.add_memory now1 mt1 c1 (some k) v1 imp1 cid1 sh1).2.add_memory
           now2 mt2 c2 (some k) v2 imp2 cid2 sh2).2.memories,
          m.key = some k →
            m.value = v2 ∧ m.content = c2 ∧
            m.importance = max imp1 imp2)) := by
  constructor
  · intro s now mt c k v imp cid sh m0 hdis hm0 hk hlook
    obtain ⟨h1, h2, _, _⟩ :=
      add_memory_update_spec s now mt c k v imp cid sh m0 hdis hm0 hk hlook
    refine ⟨h1, by rw [h1], by rw [h2, List.length_map]⟩
  · intro s now1 now2 mt1 mt2 c1 c2 k v1 v2 imp1 imp2 cid1 cid2 sh1 sh2
      hdis hk hlook hkeys hfresh
    set new1 : Memory :=
      { id := s.nextId, memory_type := mt1, content := c1, key := some k,
        value := v1, importance := imp1, created_at := now1,
        last_accessed := now1, access_count := 0, companion_id := cid1,
        conversation_id := none, is_shared := sh1 } with hnew1
    have hs1 : (s.add_memory now1 mt1 c1 (some k) v1 imp1 cid1 sh1).2 =
        { s with memories := s.memories ++ [new1],
                 indexByKey := setKey s.indexByKey k s.nextId,
                 nextId := s.nextId + 1 } := by
      simp only [MemoryStore.add_memory, hk, ↓reduceIte, hlook]
    rw [hs1]
    set s1 : MemoryStore :=
      { s with memories := s.memories ++ [new1],
               indexByKey := setKey s.indexByKey k s.nextId,
               nextId := s.nextId + 1 } with hs1def
    have hdis1 : DistinctIds s1.memories := by
      rw [hs1def]
      simp only [DistinctIds, List.pairwise_append]
      refine ⟨hdis, List.pairwise_singleton _ _, ?_⟩
      intro a ha b hb
      rw [List.mem_singleton.mp hb]
      exact Nat.ne_of_lt (hfresh a ha)
    have hmem1 : new1 ∈ s1.memories := by
      rw [hs1def]
      simp
    have hlook1 : lookupKey s1.indexByKey k = some new1.id := by
      rw [hs1def]
      exact lookupKey_setKey_self s.indexByKey k s.nextId
    obtain ⟨hr1, hr2, _, _⟩ :=
      add_memory_update_spec s1 now2 mt2 c2 k v2 imp2 cid2 sh2 new1
        hdis1 hmem1 hk hlook1
    have hfix : ∀ m ∈ s.memories,
        (fun m : Memory =>
          if m.id = new1.id then
            { m with value := v2, content := c2,
                     importance := max m.importance imp2,
                     last_accessed := now2 }
          else m) m = m := by
      intro m hm
      simp [Nat.ne_of_lt (hfresh m hm)]
    have hmemories :
        ((s1.add_memory now2 mt2 c2 (some k) v2 imp2 cid2 sh2).2).memories =
          s.memories ++
            [{ new1 with value := v2, content := c2,
                         importance := max new1.importance imp2,
                         last_accessed := now2 }] := by
      rw [hr2]
      show (s.memories ++ [new1]).map _ = _
      rw [List.map_append, map_id_of_fix s.memories _ hfix]
      simp
    constructor
    · rw [hmemories, List.filter_append]
      have hfilter : s.memories.filter (fun m => m.key == some k) = [] := by
        rw [List.filter_eq_nil_iff]
        intro m hm
        simp [hkeys m hm]
      rw [hfilter]
      simp
    · intro m hm hkey
      rw [hmemories] at hm
      rcases List.mem_append.mp hm with h | h
      · exact absurd hkey (hkeys m h)
      · rw [List.mem_singleton.mp h]
        exact ⟨rfl, rfl, rfl⟩

/-- Witness for claim C1, on a one-record store and a fresh-key store. -/
theorem add_memory_keyed_upsert_witness :
    ((({ memories := [{ id := 1, memory_type := "preference", content := "c0",
                        key := some "k", value := some "v0",
                        importance := 2 }],
         indexByKey := [("k", 1)], nextId := 2 } : MemoryStore).add_memory
        7 "goal" "c1" (some "k") (some "v1") 4 "comp" true).1 =
      { id := 1, memory_type := "preference", content := "c1",
        key := some "k", value := some "v1",
        importance := max (2 : Int) 4, last_accessed := 7 } ∧
     (({ memories := [{ id := 1, memory_type := "preference", content := "c0",
                        key := some "k", value := some "v0",
                        importance := 2 }],
         indexByKey := [("k", 1)], nextId := 2 } : MemoryStore).add_memory
        7 "goal" "c1" (some "k") (some "v1") 4 "comp" true).1.id = 1 ∧
     (({ memories := [{ id := 1, memory_type := "preference", content := "c0",
                        key := some "k", value := some "v0",
                        importance := 2 }],
         indexByKey := [("k", 1)], nextId := 2 } : MemoryStore).add_memory
        7 "goal" "c1" (some "k") (some "v1") 4 "comp" true).2.memories.length =
      ({ memories := [{ id := 1, memory_type := "preference", content := "c0",
                        key := some "k", value := some "v0",
                        importance := 2 }],
         indexByKey := [("k", 1)], nextId := 2 } : MemoryStore).memories.length) ∧
    (((emptyStore.add_memory 1 "t1" "c1" (some "k") (some "x") 2 "" true).2.add_memory
        2 "t2" "c2" (some "k") (some "y") 5 "" true).2.memories.filter
       (fun m => m.key == some "k")).length = 1 := by
  constructor
  · exact add_memory_keyed_upsert.1
      { memories := [{ id := 1, memory_type := "preference", content := "c0",
                       key := some "k", value := some "v0", importance := 2 }],
        indexByKey := [("k", 1)], nextId := 2 }
      7 "goal" "c1" "k" (some "v1") 4 "comp" true
      { id := 1, memory_type := "preference", content := "c0",
        key := some "k", value := some "v0", importance := 2 }
      (by simp [DistinctIds]) (by simp) (by decide) rfl
  · exact (add_memory_keyed_upsert.2 emptyStore 1 2 "t1" "t2" "c1" "c2" "k"
      (some "x") (some "y") 2 5 "" "" true true
      (by simp [emptyStore, DistinctIds]) (by decide) rfl
      (by simp [emptyStore]) (by simp [emptyStore])).1

/-!  Claim C10. -/

/-- Claim C10: a keyed update changes only value, content, importance and
last_accessed of the indexed record — its id, memory_type, key, created_at,
access_count, companion_id and is_shared keep their prior values even when
the call supplies a different memory_type, companion_id or is_shared — and
every record with a different id is carried over unchanged; the index and
the id supply are untouched. -/
theorem add_memory_update_frame :
    ∀ (s : MemoryStore) (now : Nat) (mt c k : String) (v : Option String)
      (imp : Int) (cid : String) (sh : Bool) (m0 : Memory),
      DistinctIds s.memories → m0 ∈ s.memories → k ≠ "" →
      lookupKey s.indexByKey k = some m0.id →
      (s.add_memory now mt c (some k) v imp cid sh).1.id = m0.id ∧
      (s.add_memory now mt c (some k) v imp cid sh).1.memory_type =
        m0.memory_type ∧
      (s.add_memory now mt c (some k) v imp cid sh).1.key = m0.key ∧
      (s.add_memory now mt c (some k) v imp cid sh).1.created_at =
        m0.created_at ∧
      (s.add_memory now mt c (some k) v imp cid sh).1.access_count =
        m0.access_count ∧
      (s.add_memory now mt c (some k) v imp cid sh).1.companion_id =
        m0.companion_id ∧
      (s.add_memory now mt c (some k) v imp cid sh).1.is_shared =
        m0.is_shared ∧
      (∀ m ∈ s.memories, m.id ≠ m0.id →
         m ∈ (s.add_memory now mt c (some k) v imp cid sh).2.memories) ∧
      (s.add_memory now mt c (some k) v imp cid sh).2.memories.length =
        s.memories.length ∧
      (s.add_memory now mt c (some k) v imp cid sh).2.indexByKey =
        s.indexByKey ∧
      (s.add_memory now mt c (some k) v imp cid sh).2.nextId = s.nextId := by
  intro s now mt c k v imp cid sh m0 hdis hm0 hk hlook
  obtain ⟨h1, h2, h3, h4⟩ :=
    add_memory_update_spec s now mt c k v imp cid sh m0 hdis hm0 hk hlook
  refine ⟨by rw [h1], by rw [h1], by rw [h1], by rw [h1], by rw [h1],
    by rw [h1], by rw [h1], ?_, by rw [h2, List.length_map], h3, h4⟩
  intro m hm hne
  rw [h2]
  exact List.mem_map.mpr ⟨m, hm, by simp [hne]⟩

/-- Witness for claim C10, on a two-record store. -/
theorem add_memory_update_frame_witness :
    (({ memories :=
          [{ id := 1, memory_type := "preference", content := "c0",
             key := some "k", value := some "v0", importance := 2,
             created_at := 4, access_count := 9, companion_id := "old",
             is_shared := false },
           { id := 2, memory_type := "goal", content := "other" }],
        indexByKey := [("k", 1)], nextId := 3 } : MemoryStore).add_memory
       7 "goal" "c1" (some "k") (some "v1") 4 "new" true).1.companion_id =
      "old" ∧
    (({ memories :=
          [{ id := 1, memory_type := "preference", content := "c0",
             key := some "k", value := some "v0", importance := 2,
             created_at := 4, access_count := 9, companion_id := "old",
             is_shared := false },
           { id := 2, memory_type := "goal", content := "other" }],
        indexByKey := [("k", 1)], nextId := 3 } : MemoryStore).add_memory
       7 "goal" "c1" (some "k") (some "v1") 4 "new" true).1.is_shared =
      false ∧
    ({ id := 2, memory_type := "goal", content := "other" } : Memory) ∈
      (({ memories :=
            [{ id := 1, memory_type := "preference", content := "c0",
               key := some "k", value := some "v0", importance := 2,
               created_at := 4, access_count := 9, companion_id := "old",
               is_shared := false },
             { id := 2, memory_type := "goal", content := "other" }],
          indexByKey := [("k", 1)], nextId := 3 } : MemoryStore).add_memory
         7 "goal" "c1" (some "k") (some "v1") 4 "new" true).2.memories := by
  have h := add_memory_update_frame
    { memories :=
        [{ id := 1, memory_type := "preference", content := "c0",
           key := some "k", value := some "v0", importance := 2,
           created_at := 4, access_count := 9, companion_id := "old",
           is_shared := false },
         { id := 2, memory_type := "goal", content := "other" }],
      indexByKey := [("k", 1)], nextId := 3 }
    7 "goal" "c1" "k" (some "v1") 4 "new" true
    { id := 1, memory_type := "preference", content := "c0",
      key := some "k", value := some "v0", importance := 2,
      created_at := 4, access_count := 9, companion_id := "old",
      is_shared := false }
    (by simp [DistinctIds]) (by simp) (by decide) rfl
  exact ⟨h.2.2.2.2.2.1, h.2.2.2.2.2.2.1,
    h.2.2.2.2.2.2.2.1 { id := 2, memory_type := "goal", content := "other" }
      (by simp) (by decide)⟩

/-!  Claim C6: template evaluation on the message of Scenario A. -/

theorem nameLoop_none (msg : List Char) (now : Nat) (cid : String)
    (ps : List Pat) (s : MemoryStore) (acc : List Memory)
    (h : ∀ p ∈ ps, searchPat p msg = none) :
    nameLoop msg now cid ps s acc = (s, acc) := by
  induction ps with
  | nil => rfl
  | cons p rest ih =>
      rw [nameLoop, h p (List.mem_cons_self p rest)]
      exact ih fun q hq => h q (List.mem_cons_of_mem p hq)

theorem locationLoop_none (msg : List Char) (now : Nat) (cid : String)
    (ps : List Pat) (s : MemoryStore) (acc : List Memory)
    (h : ∀ p ∈ ps, searchPat p msg = none) :
    locationLoop msg now cid ps s acc = (s, acc) := by
  induction ps with
  | nil => rfl
  | cons p rest ih =>
      rw [locationLoop, h p (List.mem_cons_self p rest)]
      exact ih fun q hq => h q (List.mem_cons_of_mem p hq)

theorem preferenceLoop_none (msg : List Char) (now : Nat) (cid : String)
    (ps : List (Pat × String × Int)) (s : MemoryStore) (acc : List Memory)
    (h : ∀ p ∈ ps, searchPat p.1 msg = none) :
    preferenceLoop msg now cid ps s acc = (s, acc) := by
  induction ps with
  | nil => rfl
  | cons p rest ih =>
      obtain ⟨pat, relation, imp⟩ := p
      rw [preferenceLoop, h ⟨pat, relation, imp⟩ (List.mem_cons_self _ rest)]
      exact ih fun q hq => h q (List.mem_cons_of_mem _ hq)

theorem search_my_name :
    searchPat (Pat.one "my name is " isWordChar)
      ("My name is Alice".toList) = some ("Alice", none) := by
  decide

theorem search_called :
    searchPat (Pat.one "i'm called " isWordChar)
      ("My name is Alice".toList) = none := by
  decide

theorem search_call_me :
    searchPat (Pat.one "call me " isWordChar)
      ("My name is Alice".toList) = none := by
  decide

theorem search_i_am :
    searchPat (Pat.oneSuf "i am " isWordChar " and")
      ("My name is Alice".toList) = none := by
  decide

theorem search_location_none :
    ∀ p ∈ locationPatterns, searchPat p ("My name is Alice".toList) = none := by
  decide

theorem search_preference_none :
    ∀ p ∈ preferencePatterns,
      searchPat p.1 ("My name is Alice".toList) = none := by
  decide

theorem pyTitle_alice : pyTitle "Alice" = "Alice" := by decide

theorem extract_quick_facts_on_name_message (st : MemoryStore) (now : Nat)
    (cid : String) :
    MemoryExtractor.extract_quick_facts st now "My name is Alice" cid =
      ((nameLoop ("My name is Alice".toList) now cid namePatterns st []).2,
       (nameLoop ("My name is Alice".toList) now cid namePatterns st []).1) := by
  simp only [MemoryExtractor.extract_quick_facts]
  rw [locationLoop_none ("My name is Alice".toList) now cid locationPatterns
      _ _ search_location_none,
    preferenceLoop_none ("My name is Alice".toList) now cid preferencePatterns
      _ _ search_preference_none]

/-- Claim C6: on a well-formed store with no name-keyed record, the pattern
extractor on the message of Scenario A commits exactly one personal_info
record with key name, value Alice and importance 5; run again on the
resulting store it commits nothing — the store keeps the same records up
to the access tracking of the touching name lookup. -/
theorem quick_facts_name_idempotent :
    ∀ (s : MemoryStore) (now1 now2 : Nat) (cid1 cid2 : String),
      DistinctIds s.memories →
      (∀ m ∈ s.memories, m.id < s.nextId) →
      lookupKey s.indexByKey "name" = none →
      (MemoryExtractor.extract_quick_facts s now1 "My name is Alice" cid1).1 =
        [({ id := s.nextId, memory_type := "personal_info",
            content := "User's name is Alice", key := some "name",
            value := some "Alice", importance := 5, created_at := now1,
            last_accessed := now1, access_count := 0, companion_id := cid1,
            conversation_id := none, is_shared := true } : Memory)] ∧
      (MemoryExtractor.extract_quick_facts s now1 "My name is Alice"
          cid1).2.memories =
        s.memories ++
          [({ id := s.nextId, memory_type := "personal_info",
              content := "User's name is Alice", key := some "name",
              value := some "Alice", importance := 5, created_at := now1,
              last_accessed := now1, access_count := 0, companion_id := cid1,
              conversation_id := none, is_shared := true } : Memory)] ∧
      (MemoryExtractor.extract_quick_facts
         (MemoryExtractor.extract_quick_facts s now1 "My name is Alice"
            cid1).2 now2 "My name is Alice" cid2).1 = [] ∧
      (MemoryExtractor.extract_quick_facts
         (MemoryExtractor.extract_quick_facts s now1 "My name is Alice"
            cid1).2 now2 "My name is Alice" cid2).2.memories.map dropAccess =
        (MemoryExtractor.extract_quick_facts s now1 "My name is Alice"
           cid1).2.memories.map dropAccess ∧
      (MemoryExtractor.extract_quick_facts
         (MemoryExtractor.extract_quick_facts s now1 "My name is Alice"
            cid1).2 now2 "My name is Alice" cid2).2.memories.length =
        (MemoryExtractor.extract_quick_facts s now1 "My name is Alice"
           cid1).2.memories.length := by
  intro s now1 now2 cid1 cid2 hdis hfresh hlook
  set NR : Memory :=
    { id := s.nextId, memory_type := "personal_info",
      content := "User's name is Alice", key := some "name",
      value := some "Alice", importance := 5, created_at := now1,
      last_accessed := now1, access_count := 0, companion_id := cid1,
      conversation_id := none, is_shared := true } with hNR
  have hloop1 : nameLoop ("My name is Alice".toList) now1 cid1 namePatterns
      s [] =
      ({ s with
         memories := s.memories ++ [NR],
         indexByKey := setKey s.indexByKey "name" s.nextId,
         nextId := s.nextId + 1 }, [NR]) := by
    simp only [namePatterns, nameLoop, search_my_name, search_called,
      search_call_me, search_i_am, pyTitle_alice]
    simp [MemoryStore.get_memory_by_key, hlook, MemoryStore.add_memory, hNR]
  have hrun1 : MemoryExtractor.extract_quick_facts s now1 "My name is Alice"
      cid1 =
      ([NR],
       { s with
         memories := s.memories ++ [NR],
         indexByKey := setKey s.indexByKey "name" s.nextId,
         nextId := s.nextId + 1 }) := by
    rw [extract_quick_facts_on_name_message, hloop1]
  have hdis1 : DistinctIds (s.memories ++ [NR]) := by
    simp only [DistinctIds, List.pairwise_append]
    refine ⟨hdis, List.pairwise_singleton _ _, ?_⟩
    intro a ha b hb
    rw [List.mem_singleton.mp hb, hNR]
    exact Nat.ne_of_lt (hfresh a ha)
  have hf : ∀ m : Memory,
      ((fun m : Memory => if m.id = s.nextId then m.touch now2 else m) m).id =
        m.id := by
    intro m
    by_cases h : m.id = s.nextId <;> simp [h, Memory.touch]
  have hfind := find?_id_map_upd (s.memories ++ [NR]) NR _ hf hdis1 (by simp)
  have hget2 : ({ s with
      memories := s.memories ++ [NR],
      indexByKey := setKey s.indexByKey "name" s.nextId,
      nextId := s.nextId + 1 } : MemoryStore).get_memory_by_key now2 "name" =
      (some (NR.touch now2),
       { s with
         memories := (s.memories ++ [NR]).map
           (fun m => if m.id = s.nextId then m.touch now2 else m),
         indexByKey := setKey s.indexByKey "name" s.nextId,
         nextId := s.nextId + 1 }) := by
    have hid : NR.id = s.nextId := by rw [hNR]
    rw [hid] at hfind
    simp only [MemoryStore.get_memory_by_key, lookupKey_setKey_self,
      MemoryStore.findById, hfind]
    simp [hNR]
  have hloop2 : nameLoop ("My name is Alice".toList) now2 cid2 namePatterns
      ({ s with
         memories := s.memories ++ [NR],
         indexByKey := setKey s.indexByKey "name" s.nextId,
         nextId := s.nextId + 1 } : MemoryStore) [] =
      ({ s with
         memories := (s.memories ++ [NR]).map
           (fun m => if m.id = s.nextId then m.touch now2 else m),
         indexByKey := setKey s.indexByKey "name" s.nextId,
         nextId := s.nextId + 1 }, []) := by
    simp only [namePatterns, nameLoop, search_my_name, search_called,
      search_call_me, search_i_am, pyTitle_alice, hget2]
    simp [Memory.touch, hNR]
  have hrun2 : MemoryExtractor.extract_quick_facts
      ({ s with
         memories := s.memories ++ [NR],
         indexByKey := setKey s.indexByKey "name" s.nextId,
         nextId := s.nextId + 1 } : MemoryStore) now2 "My name is Alice"
      cid2 =
      ([], { s with
         memories := (s.memories ++ [NR]).map
           (fun m => if m.id = s.nextId then m.touch now2 else m),
         indexByKey := setKey s.indexByKey "name" s.nextId,
         nextId := s.nextId + 1 }) := by
    rw [extract_quick_facts_on_name_message, hloop2]
  have hdrop : (fun m : Memory => dropAccess
      ((fun m : Memory => if m.id = s.nextId then m.touch now2 else m) m)) =
      dropAccess := by
    funext m
    by_cases h : m.id = s.nextId <;> simp [h, Memory.touch, dropAccess]
  refine ⟨by rw [hrun1], by rw [hrun1], ?_, ?_, ?_⟩
  · rw [hrun1, hrun2]
  · rw [hrun1, hrun2]
    show ((s.memories ++ [NR]).map _).map dropAccess = _
    rw [List.map_map]
    rw [show dropAccess ∘
        (fun m : Memory => if m.id = s.nextId then m.touch now2 else m) =
        dropAccess from hdrop]
  · rw [hrun1, hrun2]
    simp

/-- Witness for claim C6, starting from the empty store. -/
theorem quick_facts_name_idempotent_witness :
    (MemoryExtractor.extract_quick_facts emptyStore 3 "My name is Alice"
        "c1").1 =
      [({ id := emptyStore.nextId, memory_type := "personal_info",
          content := "User's name is Alice", key := some "name",
          value := some "Alice", importance := 5, created_at := 3,
          last_accessed := 3, access_count := 0, companion_id := "c1",
          conversation_id := none, is_shared := true } : Memory)] ∧
    (MemoryExtractor.extract_quick_facts
       (MemoryExtractor.extract_quick_facts emptyStore 3 "My name is Alice"
          "c1").2 4 "My name is Alice" "c2").1 = [] := by
  have h := quick_facts_name_idempotent emptyStore 3 4 "c1" "c2"
    (by simp [emptyStore, DistinctIds]) (by simp [emptyStore]) rfl
  exact ⟨h.1, h.2.2.1⟩

/-!  Claim C3. -/

/-- Claim C3, counterexample: importing with merge false a file holding two
well-formed records with the same non-null key appends both instead of
merging — afterwards two records hold that key, so the at-most-one
invariant fails and the merge-on-collision behaviour claimed for
merge=false does not hold. -/
theorem import_replace_duplicate_key :
    ((emptyStore.import_memories
        (.bareList
          [RawRecord.record 1 "preference" "a" (some "k") (some "x") 2 0 0 0
             "c" none (some true),
           RawRecord.record 2 "preference" "b" (some "k") (some "y") 3 0 0 0
             "c" none (some true)]) false).2.memories.filter
       (fun m => m.key == some "k")).length = 2 ∧
    ¬ (((emptyStore.import_memories
        (.bareList
          [RawRecord.record 1 "preference" "a" (some "k") (some "x") 2 0 0 0
             "c" none (some true),
           RawRecord.record 2 "preference" "b" (some "k") (some "y") 3 0 0 0
             "c" none (some true)]) false).2.memories.filter
       (fun m => m.key == some "k")).length ≤ 1) := by
  decide

/-- The record list a structurally valid import file carries. -/
def JsonFile.records : JsonFile → List RawRecord
  | .envelope _ _ _ mems => mems
  | .bareList mems => mems
  | _ => []

theorem keyTruthy_iff (o : Option String) :
    keyTruthy o = true ↔ ∃ k, o = some k ∧ k ≠ "" := by
  cases o with
  | none => simp [keyTruthy]
  | some s => simp [keyTruthy]

theorem storeInv_keyUnique (s : MemoryStore) (h : StoreInv s) : KeyUnique s := by
  intro k hk
  refine List.Pairwise.imp_of_mem ?_ h.distinct
  intro a b ha hb hne hcon
  obtain ⟨hak, hbk⟩ := hcon
  have h1 := h.complete a ha k hak hk
  have h2 := h.complete b hb k hbk hk
  rw [h1] at h2
  exact hne (Option.some.inj h2)

theorem storeInv_map_fields (s : MemoryStore) (f : Memory → Memory)
    (hid : ∀ m, (f m).id = m.id) (hkey : ∀ m, (f m).key = m.key)
    (h : StoreInv s) :
    StoreInv { s with memories := s.memories.map f } := by
  constructor
  · show DistinctIds (s.memories.map f)
    rw [DistinctIds, List.pairwise_map]
    refine h.distinct.imp ?_
    intro a b hab
    rw [hid, hid]
    exact hab
  · intro m hm
    obtain ⟨m0, hm0, rfl⟩ := List.mem_map.mp hm
    rw [hid]
    exact h.fresh m0 hm0
  · intro k i hki
    obtain ⟨m0, hm0, h1, h2, h3⟩ := h.sound k i hki
    exact ⟨f m0, List.mem_map_of_mem f hm0, by rw [hid, h1],
      by rw [hkey, h2], h3⟩
  · intro m hm k hk hkne
    obtain ⟨m0, hm0, rfl⟩ := List.mem_map.mp hm
    rw [hid]
    refine h.complete m0 hm0 k ?_ hkne
    rw [← hkey m0]
    exact hk

theorem add_memory_update_store (s : MemoryStore) (now : Nat)
    (mt c k : String) (v : Option String) (imp : Int) (cid : String)
    (sh : Bool) (m0 : Memory)
    (hdis : DistinctIds s.memories) (hm0 : m0 ∈ s.memories) (hk : k ≠ "")
    (hlook : lookupKey s.indexByKey k = some m0.id) :
    (s.add_memory now mt c (some k) v imp cid sh).2 =
      { s with
        memories := s.memories.map (fun m =>
          if m.id = m0.id then
            { m with value := v, content := c,
                     importance := max m.importance imp,
                     last_accessed := now }
          else m) } := by
  obtain ⟨_, h2, h3, h4⟩ :=
    add_memory_update_spec s now mt c k v imp cid sh m0 hdis hm0 hk hlook
  have hsplit : (s.add_memory now mt c (some k) v imp cid sh).2 =
      ⟨(s.add_memory now mt c (some k) v imp cid sh).2.memories,
       (s.add_memory now mt c (some k) v imp cid sh).2.indexByKey,
       (s.add_memory now mt c (some k) v imp cid sh).2.nextId⟩ := rfl
  rw [hsplit, h2, h3, h4]

theorem add_memory_inv (s : MemoryStore) (now : Nat) (mt c : String)
    (key value : Option String) (imp : Int) (cid : String) (sh : Bool)
    (h : StoreInv s) :
    StoreInv (s.add_memory now mt c key value imp cid sh).2 := by
  cases hkey : key with
  | none =>
      constructor
      · show DistinctIds (s.memories ++ [_])
        rw [DistinctIds, List.pairwise_append]
        refine ⟨h.distinct, List.pairwise_singleton _ _, ?_⟩
        intro a ha b hb
        rw [List.mem_singleton.mp hb]
        exact Nat.ne_of_lt (h.fresh a ha)
      · intro m hm
        rcases List.mem_append.mp hm with hm | hm
        · exact Nat.lt_succ_of_lt (h.fresh m hm)
        · rw [List.mem_singleton.mp hm]
          exact Nat.lt_succ_self _
      · intro k i hki
        obtain ⟨m0, hm0, h1, h2, h3⟩ := h.sound k i hki
        exact ⟨m0, List.mem_append_left _ hm0, h1, h2, h3⟩
      · intro m hm k hk hkne
        rcases List.mem_append.mp hm with hm | hm
        · exact h.complete m hm k hk hkne
        · rw [List.mem_singleton.mp hm] at hk
          simp at hk
  | some k0 =>
      by_cases hk0 : k0 = ""
      · subst hk0
        simp only [MemoryStore.add_memory, if_pos rfl]
        constructor
        · show DistinctIds (s.memories ++ [_])
          rw [DistinctIds, List.pairwise_append]
          refine ⟨h.distinct, List.pairwise_singleton _ _, ?_⟩
          intro a ha b hb
          rw [List.mem_singleton.mp hb]
          exact Nat.ne_of_lt (h.fresh a ha)
        · intro m hm
          rcases List.mem_append.mp hm with hm | hm
          · exact Nat.lt_succ_of_lt (h.fresh m hm)
          · rw [List.mem_singleton.mp hm]
            exact Nat.lt_succ_self _
        · intro k i hki
          obtain ⟨m0, hm0, h1, h2, h3⟩ := h.sound k i hki
          exact ⟨m0, List.mem_append_left _ hm0, h1, h2, h3⟩
        · intro m hm k hk hkne
          rcases List.mem_append.mp hm with hm | hm
          · exact h.complete m hm k hk hkne
          · rw [List.mem_singleton.mp hm] at hk
            simp only at hk
            rw [Option.some.injEq] at hk
            exact absurd hk.symm hkne
      · cases hlook : lookupKey s.indexByKey k0 with
        | some i =>
            obtain ⟨m0, hm0, hid0, _, _⟩ := h.sound k0 i hlook
            rw [add_memory_update_store s now mt c k0 value imp cid sh m0
              h.distinct hm0 hk0 (by rw [hlook, hid0])]
            exact storeInv_map_fields s _ (fun m => by
                by_cases hm : m.id = m0.id <;> simp [hm])
              (fun m => by by_cases hm : m.id = m0.id <;> simp [hm]) h
        | none =>
            simp only [MemoryStore.add_memory, hk0, ↓reduceIte, hlook]
            constructor
            · show DistinctIds (s.memories ++ [_])
              rw [DistinctIds, List.pairwise_append]
              refine ⟨h.distinct, List.pairwise_singleton _ _, ?_⟩
              intro a ha b hb
              rw [List.mem_singleton.mp hb]
              exact Nat.ne_of_lt (h.fresh a ha)
            · intro m hm
              rcases List.mem_append.mp hm with hm | hm
              · exact Nat.lt_succ_of_lt (h.fresh m hm)
              · rw [List.mem_singleton.mp hm]
                exact Nat.lt_succ_self _
            · intro k i hki
              by_cases hkk : k = k0
              · subst hkk
                rw [lookupKey_setKey_self] at hki
                refine ⟨_, List.mem_append_right _ (List.mem_singleton_self _),
                  ?_, rfl, hk0⟩
                exact Option.some.inj hki
              · rw [lookupKey_setKey_ne _ _ _ _ hkk] at hki
                obtain ⟨m0, hm0, h1, h2, h3⟩ := h.sound k i hki
                exact ⟨m0, List.mem_append_left _ hm0, h1, h2, h3⟩
            · intro m hm k hk hkne
              rcases List.mem_append.mp hm with hm | hm
              · have hold := h.complete m hm k hk hkne
                have hkk : k ≠ k0 := by
                  intro he
                  rw [he, hlook] at hold
                  exact Option.noConfusion hold
                rw [lookupKey_setKey_ne _ _ _ _ hkk]
                exact hold
              · rw [List.mem_singleton.mp hm] at hk ⊢
                simp only at hk
                rw [Option.some.injEq] at hk
                subst hk
                rw [lookupKey_setKey_self]

theorem deleteFirstById_spec (l : List Memory) (i : Nat) (m : Memory)
    (rest : List Memory) (h : deleteFirstById l i = some (m, rest)) :
    ∃ l1 l2, l = l1 ++ m :: l2 ∧ rest = l1 ++ l2 ∧ m.id = i ∧
      ∀ x ∈ l1, x.id ≠ i := by
  induction l generalizing rest with
  | nil => simp [deleteFirstById] at h
  | cons hd tl ih =>
      by_cases hid : hd.id = i
      · simp only [deleteFirstById, if_pos hid, Option.some.injEq,
          Prod.mk.injEq] at h
        exact ⟨[], tl, by simp [h.1], by simp [h.2], h.1 ▸ hid, by simp⟩
      · cases hrec : deleteFirstById tl i with
        | none => simp [deleteFirstById, hid, hrec] at h
        | some p =>
            obtain ⟨found, rest'⟩ := p
            simp only [deleteFirstById, if_neg hid, hrec, Option.some.injEq,
              Prod.mk.injEq] at h
            obtain ⟨hf, hr⟩ := h
            subst hf
            obtain ⟨l1, l2, h1, h2, h3, h4⟩ := ih rest' hrec
            refine ⟨hd :: l1, l2, by simp [h1], by simp [← hr, h2], h3, ?_⟩
            intro x hx
            rcases List.mem_cons.mp hx with hx | hx
            · exact hx ▸ hid
            · exact h4 x hx


theorem delete_memory_inv (s : MemoryStore) (i : Nat) (h : StoreInv s) :
    StoreInv (s.delete_memory i).2 := by
  cases hdel : deleteFirstById s.memories i with
  | none =>
      have hdel2 : (s.delete_memory i).2 = s := by
        unfold MemoryStore.delete_memory
        rw [hdel]
      rw [hdel2]
      exact h
  | some p =>
      obtain ⟨m, rest⟩ := p
      obtain ⟨l1, l2, hl, hrest, hmid, hne1⟩ :=
        deleteFirstById_spec s.memories i m rest hdel
      have hdel2 : (s.delete_memory i).2 =
          { s with
            memories := rest,
            indexByKey :=
              if keyTruthy m.key then removeKey s.indexByKey (m.key.getD "")
              else s.indexByKey } := by
        unfold MemoryStore.delete_memory
        rw [hdel]
      rw [hdel2]
      have hm_mem : m ∈ s.memories := by
        rw [hl]
        exact List.mem_append_right _ (List.mem_cons_self m l2)
      have hmem_sub : ∀ x ∈ rest, x ∈ s.memories := by
        intro x hx
        rw [hl]
        rw [hrest] at hx
        rcases List.mem_append.mp hx with hx | hx
        · exact List.mem_append_left _ hx
        · exact List.mem_append_right _ (List.mem_cons_of_mem m hx)
      have hdisrest : DistinctIds rest := by
        rw [hrest]
        have hd := h.distinct
        rw [hl, DistinctIds, List.pairwise_append, List.pairwise_cons] at hd
        rw [DistinctIds, List.pairwise_append]
        exact ⟨hd.1, hd.2.1.2, fun a ha b hb =>
          hd.2.2 a ha b (List.mem_cons_of_mem m hb)⟩
      have hid_ne : ∀ x ∈ rest, x.id ≠ m.id := by
        intro x hx
        have hd := h.distinct
        rw [hl, DistinctIds, List.pairwise_append, List.pairwise_cons] at hd
        rw [hrest] at hx
        rcases List.mem_append.mp hx with hx | hx
        · exact hd.2.2 x hx m (List.mem_cons_self m l2)
        · exact fun he => (hd.2.1.1 x hx) he.symm
      have hmem_of : ∀ x ∈ s.memories, x ≠ m → x ∈ rest := by
        intro x hx hxm
        rw [hl] at hx
        rw [hrest]
        rcases List.mem_append.mp hx with hx | hx
        · exact List.mem_append_left _ hx
        · rcases List.mem_cons.mp hx with hx | hx
          · exact absurd hx hxm
          · exact List.mem_append_right _ hx
      constructor
      · exact hdisrest
      · intro x hx
        exact h.fresh x (hmem_sub x hx)
      · intro k i' hki
        simp only at hki
        by_cases htr : keyTruthy m.key = true
        · obtain ⟨mk, hmk, hmkne⟩ := (keyTruthy_iff m.key).mp htr
          rw [if_pos htr, hmk] at hki
          simp only [Option.getD_some] at hki
          by_cases hkk : k = mk
          · subst hkk
            rw [lookupKey_removeKey_self] at hki
            exact absurd hki (by simp)
          · rw [lookupKey_removeKey_ne _ _ _ hkk] at hki
            obtain ⟨w, hw, h1, h2, h3⟩ := h.sound k i' hki
            refine ⟨w, hmem_of w hw ?_, h1, h2, h3⟩
            intro he
            rw [he, hmk] at h2
            exact hkk (Option.some.inj h2).symm
        · rw [if_neg htr] at hki
          obtain ⟨w, hw, h1, h2, h3⟩ := h.sound k i' hki
          refine ⟨w, hmem_of w hw ?_, h1, h2, h3⟩
          intro he
          rw [he] at h2
          rw [(keyTruthy_iff m.key).mpr ⟨k, h2, h3⟩] at htr
          exact htr rfl
      · intro x hx k hk hkne
        have hold := h.complete x (hmem_sub x hx) k hk hkne
        simp only
        by_cases htr : keyTruthy m.key = true
        · obtain ⟨mk, hmk, hmkne⟩ := (keyTruthy_iff m.key).mp htr
          rw [if_pos htr, hmk]
          simp only [Option.getD_some]
          by_cases hkk : k = mk
          · exfalso
            subst hkk
            have hmc := h.complete m hm_mem k hmk hkne
            rw [hold] at hmc
            exact hid_ne x hx (Option.some.inj hmc)
          · rw [lookupKey_removeKey_ne _ _ _ hkk]
            exact hold
        · rw [if_neg htr]
          exact hold

theorem update_importance_inv (s : MemoryStore) (i : Nat) (v : Int)
    (h : StoreInv s) :
    StoreInv (s.update_memory_importance i v).2 := by
  cases hup : updateImportanceList s.memories i v with
  | none =>
      have hup2 : (s.update_memory_importance i v).2 = s := by
        unfold MemoryStore.update_memory_importance
        rw [hup]
      rw [hup2]
      exact h
  | some l' =>
      have hup2 : (s.update_memory_importance i v).2 =
          { s with memories := l' } := by
        unfold MemoryStore.update_memory_importance
        rw [hup]
      rw [hup2]
      obtain ⟨l1, m, l2, hl, hmid, hl', hne1⟩ :=
        updateImportanceList_spec s.memories i v l' hup
      have hm_mem : m ∈ s.memories := by
        rw [hl]
        exact List.mem_append_right _ (List.mem_cons_self m l2)
      have hmem_mu : ({ m with importance := max 1 (min 5 v) } : Memory) ∈ l' := by
        rw [hl']
        exact List.mem_append_right _ (List.mem_cons_self _ l2)
      have hmem_l1 : ∀ x ∈ l1, x ∈ l' := by
        intro x hx
        rw [hl']
        exact List.mem_append_left _ hx
      have hmem_l2 : ∀ x ∈ l2, x ∈ l' := by
        intro x hx
        rw [hl']
        exact List.mem_append_right _ (List.mem_cons_of_mem _ hx)
      have hids : l'.map (fun m => m.id) = s.memories.map (fun m => m.id) := by
        rw [hl, hl']
        simp
      have hmem_corr : ∀ x ∈ l', x ∈ s.memories ∨
          (x = { m with importance := max 1 (min 5 v) } ∧ m ∈ s.memories) := by
        intro x hx
        rw [hl'] at hx
        rcases List.mem_append.mp hx with hx | hx
        · refine Or.inl ?_
          rw [hl]
          exact List.mem_append_left _ hx
        · rcases List.mem_cons.mp hx with hx | hx
          · exact Or.inr ⟨hx, hm_mem⟩
          · refine Or.inl ?_
            rw [hl]
            exact List.mem_append_right _ (List.mem_cons_of_mem m hx)
      constructor
      · show DistinctIds l'
        have h1 : (l'.map (fun m => m.id)).Pairwise Ne := by
          rw [hids, List.pairwise_map]
          exact h.distinct
        rw [DistinctIds]
        exact List.pairwise_map.mp h1
      · intro x hx
        rcases hmem_corr x hx with hx' | ⟨hx', hm⟩
        · exact h.fresh x hx'
        · rw [hx']
          exact h.fresh m hm
      · intro k i' hki
        obtain ⟨w, hw, h1, h2, h3⟩ := h.sound k i' hki
        rw [hl] at hw
        rcases List.mem_append.mp hw with hw | hw
        · exact ⟨w, hmem_l1 w hw, h1, h2, h3⟩
        · rcases List.mem_cons.mp hw with hw | hw
          · subst hw
            exact ⟨{ w with importance := max 1 (min 5 v) }, hmem_mu, h1, h2, h3⟩
          · exact ⟨w, hmem_l2 w hw, h1, h2, h3⟩
      · intro x hx k hk hkne
        rcases hmem_corr x hx with hx' | ⟨hx', hm⟩
        · exact h.complete x hx' k hk hkne
        · subst hx'
          exact h.complete m hm k hk hkne

theorem importInsert_inv (s : MemoryStore) (memory : Memory)
    (h : StoreInv s) (hid : ∀ x ∈ s.memories, x.id ≠ memory.id)
    (hkey : ∀ k, memory.key = some k → k ≠ "" →
       lookupKey s.indexByKey k = none) :
    StoreInv (importInsert s memory) := by
  constructor
  · show DistinctIds (s.memories ++ [memory])
    rw [DistinctIds, List.pairwise_append]
    refine ⟨h.distinct, List.pairwise_singleton _ _, ?_⟩
    intro a ha b hb
    rw [List.mem_singleton.mp hb]
    exact hid a ha
  · intro x hx
    show x.id < max s.nextId (memory.id + 1)
    rcases List.mem_append.mp hx with hx | hx
    · exact lt_of_lt_of_le (h.fresh x hx) (le_max_left _ _)
    · rw [List.mem_singleton.mp hx]
      exact lt_of_lt_of_le (Nat.lt_succ_self _) (le_max_right _ _)
  · intro k i hki
    simp only [importInsert] at hki ⊢
    by_cases htr : keyTruthy memory.key = true
    · obtain ⟨mk, hmk, hmkne⟩ := (keyTruthy_iff memory.key).mp htr
      rw [if_pos htr, hmk] at hki
      simp only [Option.getD_some] at hki
      by_cases hkk : k = mk
      · subst hkk
        rw [lookupKey_setKey_self] at hki
        refine ⟨memory, List.mem_append_right _ (List.mem_singleton_self _),
          (Option.some.inj hki), hmk, hmkne⟩
      · rw [lookupKey_setKey_ne _ _ _ _ hkk] at hki
        obtain ⟨w, hw, h1, h2, h3⟩ := h.sound k i hki
        exact ⟨w, List.mem_append_left _ hw, h1, h2, h3⟩
    · rw [if_neg htr] at hki
      obtain ⟨w, hw, h1, h2, h3⟩ := h.sound k i hki
      exact ⟨w, List.mem_append_left _ hw, h1, h2, h3⟩
  · intro x hx k hk hkne
    simp only [importInsert] at hx ⊢
    rcases List.mem_append.mp hx with hx | hx
    · have hold := h.complete x hx k hk hkne
      by_cases htr : keyTruthy memory.key = true
      · obtain ⟨mk, hmk, hmkne⟩ := (keyTruthy_iff memory.key).mp htr
        rw [if_pos htr, hmk]
        simp only [Option.getD_some]
        by_cases hkk : k = mk
        · exfalso
          subst hkk
          rw [hkey k hmk hmkne] at hold
          exact Option.noConfusion hold
        · rw [lookupKey_setKey_ne _ _ _ _ hkk]
          exact hold
      · rw [if_neg htr]
        exact hold
    · rw [List.mem_singleton.mp hx] at hk ⊢
      have htr : keyTruthy memory.key = true :=
        (keyTruthy_iff memory.key).mpr ⟨k, hk, hkne⟩
      rw [if_pos htr, hk]
      simp only [Option.getD_some]
      rw [lookupKey_setKey_self]

theorem importOne_true_inv (s : MemoryStore) (memory : Memory)
    (h : StoreInv s) (hid : ∀ x ∈ s.memories, x.id ≠ memory.id) :
    StoreInv (importOne true s memory).1 ∧
    (∀ x ∈ (importOne true s memory).1.memories,
       x.id = memory.id ∨ ∃ y ∈ s.memories, x.id = y.id) := by
  have hsub_insert : ∀ x ∈ (importInsert s memory).memories,
      x.id = memory.id ∨ ∃ y ∈ s.memories, x.id = y.id := by
    intro x hx
    simp only [importInsert] at hx
    rcases List.mem_append.mp hx with hx | hx
    · exact Or.inr ⟨x, hx, rfl⟩
    · rw [List.mem_singleton.mp hx]
      exact Or.inl rfl
  cases hmk : memory.key with
  | none =>
      have he : importOne true s memory = (importInsert s memory, false) := by
        simp [importOne, hmk]
      rw [he]
      refine ⟨importInsert_inv s memory h hid ?_, hsub_insert⟩
      intro k hk
      rw [hmk] at hk
      exact absurd hk (by simp)
  | some k0 =>
      by_cases hk0 : k0 = ""
      · have he : importOne true s memory = (importInsert s memory, false) := by
          simp [importOne, hmk, hk0]
        rw [he]
        refine ⟨importInsert_inv s memory h hid ?_, hsub_insert⟩
        intro k hk hkne
        rw [hmk] at hk
        rw [hk0] at hk
        exact absurd (Option.some.inj hk) (Ne.symm hkne)
      · cases hlook : lookupKey s.indexByKey k0 with
        | some i =>
            have he : importOne true s memory =
                ({ s with memories := s.memories.map (fun m =>
                    if m.id = i then
                      { m with value := memory.value,
                               content := memory.content,
                               importance := max m.importance
                                 memory.importance }
                    else m) }, true) := by
              simp [importOne, hmk, hk0, hlook]
            rw [he]
            constructor
            · refine storeInv_map_fields s _ ?_ ?_ h
              · intro m
                by_cases hm : m.id = i <;> simp [hm]
              · intro m
                by_cases hm : m.id = i <;> simp [hm]
            · intro x hx
              obtain ⟨y, hy, rfl⟩ := List.mem_map.mp hx
              refine Or.inr ⟨y, hy, ?_⟩
              by_cases hm : y.id = i <;> simp [hm]
        | none =>
            have he : importOne true s memory = (importInsert s memory, false) := by
              simp [importOne, hmk, hk0, hlook]
            rw [he]
            refine ⟨importInsert_inv s memory h hid ?_, hsub_insert⟩
            intro k hk hkne
            rw [hmk] at hk
            rw [← Option.some.inj hk]
            exact hlook

theorem importRecords_true_inv (l : List RawRecord) (s : MemoryStore)
    (h : StoreInv s)
    (hfresh : ∀ raw ∈ l, ∀ m, raw.toMemory = some m →
       ∀ x ∈ s.memories, x.id ≠ m.id)
    (hdisl : DistinctIds (l.filterMap RawRecord.toMemory)) :
    StoreInv (importRecords true s l).1 ∧
    (∀ x ∈ (importRecords true s l).1.memories,
       (∃ y ∈ s.memories, x.id = y.id) ∨
       (∃ raw ∈ l, ∃ m, raw.toMemory = some m ∧ x.id = m.id)) := by
  induction l generalizing s with
  | nil => exact ⟨h, fun x hx => Or.inl ⟨x, hx, rfl⟩⟩
  | cons raw rest ih =>
      cases hr : raw.toMemory with
      | none =>
          have he : (importRecords true s (raw :: rest)).1 =
              (importRecords true s rest).1 := by
            simp [importRecords, hr]
          rw [he]
          have hfm : (raw :: rest).filterMap RawRecord.toMemory =
              rest.filterMap RawRecord.toMemory := by
            simp [List.filterMap_cons, hr]
          rw [hfm] at hdisl
          obtain ⟨h1, h2⟩ := ih s h
            (fun raw' hraw' => hfresh raw' (List.mem_cons_of_mem raw hraw'))
            hdisl
          refine ⟨h1, ?_⟩
          intro x hx
          rcases h2 x hx with hx' | ⟨raw', hraw', m', hm', hxm⟩
          · exact Or.inl hx'
          · exact Or.inr ⟨raw', List.mem_cons_of_mem raw hraw', m', hm', hxm⟩
      | some memory =>
          have he : (importRecords true s (raw :: rest)).1 =
              (importRecords true (importOne true s memory).1 rest).1 := by
            simp only [importRecords, hr]
            cases hb : (importOne true s memory).2 <;> simp [hb]
          have hfm : (raw :: rest).filterMap RawRecord.toMemory =
              memory :: rest.filterMap RawRecord.toMemory := by
            simp [List.filterMap_cons, hr]
          rw [hfm, DistinctIds, List.pairwise_cons] at hdisl
          obtain ⟨hOne, hsub⟩ := importOne_true_inv s memory h
            (hfresh raw (List.mem_cons_self raw rest) memory hr)
          have hfresh1 : ∀ raw' ∈ rest, ∀ m', raw'.toMemory = some m' →
              ∀ x ∈ (importOne true s memory).1.memories, x.id ≠ m'.id := by
            intro raw' hraw' m' hm' x hx
            rcases hsub x hx with hxm | ⟨y, hy, hxy⟩
            · rw [hxm]
              exact hdisl.1 m' (List.mem_filterMap.mpr ⟨raw', hraw', hm'⟩)
            · rw [hxy]
              exact hfresh raw' (List.mem_cons_of_mem raw hraw') m' hm' y hy
          obtain ⟨h1, h2⟩ := ih (importOne true s memory).1 hOne hfresh1
            hdisl.2
          rw [he]
          refine ⟨h1, ?_⟩
          intro x hx
          rcases h2 x hx with ⟨y, hy, hxy⟩ | ⟨raw', hraw', m', hm', hxm⟩
          · rcases hsub y hy with hym | ⟨z, hz, hyz⟩
            · exact Or.inr ⟨raw, List.mem_cons_self raw rest, memory, hr,
                hxy.trans hym⟩
            · exact Or.inl ⟨z, hz, hxy.trans hyz⟩
          · exact Or.inr ⟨raw', List.mem_cons_of_mem raw hraw', m', hm', hxm⟩

theorem import_true_inv (s : MemoryStore) (file : JsonFile)
    (h : StoreInv s) (hfile : FreshIdsFrom file.records s.nextId) :
    StoreInv (s.import_memories file true).2 := by
  obtain ⟨hge, hdisl⟩ := hfile
  cases file with
  | unreadable => exact h
  | invalidJson => exact h
  | otherShape => exact h
  | envelope v d t mems =>
      have he : (s.import_memories (.envelope v d t mems) true).2 =
          (importRecords true s mems).1 := by
        simp [MemoryStore.import_memories, importGo]
      rw [he]
      refine (importRecords_true_inv mems s h ?_ hdisl).1
      intro raw hraw m hm x hx
      exact Nat.ne_of_lt (lt_of_lt_of_le (h.fresh x hx) (hge raw hraw m hm))
  | bareList mems =>
      have he : (s.import_memories (.bareList mems) true).2 =
          (importRecords true s mems).1 := by
        simp [MemoryStore.import_memories, importGo]
      rw [he]
      refine (importRecords_true_inv mems s h ?_ hdisl).1
      intro raw hraw m hm x hx
      exact Nat.ne_of_lt (lt_of_lt_of_le (h.fresh x hx) (hge raw hraw m hm))

/-- Claim C3 as amended: the well-formedness invariant (which entails that
at most one record holds any given non-empty key) is preserved by
add_memory, delete_memory, update_memory_importance and import_memories
with merge true (under the uuid-freshness reading of imported ids), but
import_memories with merge false clears the store and then appends every
well-formed file record as-is, merging nothing — so a file holding two
records with one key yields two records with that key. -/
theorem key_uniqueness_preserved :
    (∀ s : MemoryStore, StoreInv s → KeyUnique s) ∧
    (∀ (s : MemoryStore) (now : Nat) (mt c : String)
       (key value : Option String) (imp : Int) (cid : String) (sh : Bool),
       StoreInv s → StoreInv (s.add_memory now mt c key value imp cid sh).2) ∧
    (∀ (s : MemoryStore) (i : Nat), StoreInv s →
       StoreInv (s.delete_memory i).2) ∧
    (∀ (s : MemoryStore) (i : Nat) (v : Int), StoreInv s →
       StoreInv (s.update_memory_importance i v).2) ∧
    (∀ (s : MemoryStore) (file : JsonFile), StoreInv s →
       FreshIdsFrom file.records s.nextId →
       StoreInv (s.import_memories file true).2) ∧
    (∀ (s : MemoryStore) (l : List RawRecord),
       ((s.import_memories (.bareList l) false).2).memories =
         l.filterMap RawRecord.toMemory) := by
  refine ⟨storeInv_keyUnique,
    fun s now mt c key value imp cid sh h =>
      add_memory_inv s now mt c key value imp cid sh h,
    fun s i h => delete_memory_inv s i h,
    fun s i v h => update_importance_inv s i v h,
    fun s file h hf => import_true_inv s file h hf, ?_⟩
  intro s l
  have he : ((s.import_memories (.bareList l) false).2).memories =
      ((importRecords false
        { s with memories := [], indexByKey := [] } l).1).memories := by
    simp [MemoryStore.import_memories, importGo]
  rw [he, importRecords_false_memories]
  rfl

/-- Witness for the amended claim C3: the invariant holds of the empty
store, is carried through an add_memory call, and yields key uniqueness. -/
theorem key_uniqueness_preserved_witness :
    KeyUnique emptyStore ∧
    StoreInv (emptyStore.add_memory 0 "goal" "c" (some "k") (some "v") 3
      "" true).2 ∧
    ((emptyStore.import_memories (.bareList []) false).2).memories =
      List.filterMap RawRecord.toMemory [] := by
  have hinv : StoreInv emptyStore := by
    constructor
    · simp [emptyStore, DistinctIds]
    · intro m hm
      simp [emptyStore] at hm
    · intro k i hki
      simp [emptyStore, lookupKey] at hki
    · intro m hm
      simp [emptyStore] at hm
  exact ⟨key_uniqueness_preserved.1 emptyStore hinv,
    key_uniqueness_preserved.2.1 emptyStore 0 "goal" "c" (some "k")
      (some "v") 3 "" true hinv,
    key_uniqueness_preserved.2.2.2.2.2 emptyStore []⟩
